import Mathlib

/-!
# go-nextrip: the request pipeline of `nextrip/nextrip.go`

A shallow embedding of `nextrip.go` and of the parts of Go's standard library
it calls (`strings`, `net/url`, `net/http`, `fmt`), followed by theorems about
`NewClient`, `newRequest`, `toHTTP`, `doRequest` and `get`.

Conventions of the embedding:

* a Go `string` is the list of its bytes (`GoString`);
* a Go `error` value is a `GoError`; a `nil` error is `none`;
* a pointer that may be `nil` is an `Option`; dereferencing `nil` is `Panic.nilDereference`;
* a Go map (`url.Values`, `http.Header`) is an association list;
* a function that mutates what a pointer argument points to returns the new pointee;
* the HTTP client and the JSON decoder are collaborators whose behaviour is a
  parameter: `http.Client.Do` is a field, the decoder is an argument of `get`;
* a response body carries the number of `Close` calls made on it before `Do` returned
  it, and `get` reports the calls it made itself.
-/

/-! ## Go strings -/

/-- A byte. -/
abbrev Byte := Fin 256

/-- A Go `string`: an immutable sequence of bytes. -/
abbrev GoString := List Byte

/-- The byte of an ASCII character literal such as `'/'`. -/
def b (c : Char) : Byte := Fin.ofNat c.toNat

/-- The Go string of an ASCII string literal of the source. -/
def lit (s : String) : GoString := s.toList.map b

/-- Go `error` values. `errorString` is what `errors.New` and `fmt.Errorf` build (the
formatted message); `quoted` is a `fmt.Errorf` whose format holds one `%q` verb, kept as
the text before the verb, the argument and the text after it; `EscapeError` and
`InvalidHostError` are the types of `net/url`; `urlError` is `*url.Error`; `other` is an
error value made by a collaborator (the HTTP client, the JSON decoder). -/
inductive GoError where
  | errorString (msg : GoString)
  | quoted (before arg after : GoString)
  | EscapeError (s : GoString)
  | InvalidHostError (s : GoString)
  | urlError (op url : GoString) (err : GoError)
  | other (id : Nat)
deriving DecidableEq, Repr

deriving instance DecidableEq for Except

/-- A run-time panic. The only one the embedded code can raise is a nil dereference. -/
inductive Panic where
  | nilDereference
deriving DecidableEq, Repr

/-! ## Package `strings` (separators are single bytes at every call site but one) -/

namespace strings

/-- `strings.HasPrefix(s, p)`. -/
def HasPrefix (s p : GoString) : Bool := p.isPrefixOf s

/-- `strings.HasSuffix(s, p)`. -/
def HasSuffix (s p : GoString) : Bool := p.isSuffixOf s

/-- `strings.Count(s, sep)` for a one-byte `sep`. -/
def Count (s : GoString) (sep : Byte) : Nat := s.count sep

/-- `strings.Contains(s, sep)` for a one-byte `sep`. -/
def Contains (s : GoString) (sep : Byte) : Bool := s.contains sep

/-- `strings.Cut(s, sep)` for a one-byte `sep`: the text before the first `sep`, the text
after it and whether `sep` was found; `(s, "", false)` when it was not. -/
def Cut : GoString → Byte → GoString × GoString × Bool
  | [], _ => ([], [], false)
  | c :: rest, sep =>
    if c = sep then ([], rest, true)
    else ((c :: (Cut rest sep).1), (Cut rest sep).2.1, (Cut rest sep).2.2)

/-- `strings.Index(s, sub)`: the index of the first occurrence, `none` for Go's `-1`. -/
def Index : GoString → GoString → Option Nat
  | [], sub => if sub = [] then some 0 else none
  | c :: rest, sub =>
    if sub.isPrefixOf (c :: rest) then some 0 else (Index rest sub).map (· + 1)

/-- `strings.LastIndex(s, sep)` for a one-byte `sep`, `none` for Go's `-1`. -/
def LastIndex : GoString → Byte → Option Nat
  | [], _ => none
  | c :: rest, sep =>
    match LastIndex rest sep with
    | some i => some (i + 1)
    | none => if c = sep then some 0 else none

/-- `strings.ToLower(s)` on ASCII text. -/
def ToLower (s : GoString) : GoString :=
  s.map (fun c => if b 'A' ≤ c ∧ c ≤ b 'Z' then c + 32 else c)

/-- `strings.TrimSuffix(s, suffix)` for a one-byte suffix. -/
def TrimSuffix (s : GoString) (suffix : Byte) : GoString :=
  if s.getLast? = some suffix then s.dropLast else s

/-- `strings.Join(elems, sep)`. -/
def Join : List GoString → GoString → GoString
  | [], _ => []
  | [x], _ => x
  | x :: y :: rest, sep => x ++ sep ++ Join (y :: rest) sep

end strings

/-! ## Package `fmt` -/

namespace fmt

/-- The verb `%d` applied to an `int`: decimal digits, with a leading `-` when negative. -/
def formatInt (n : Int) : GoString :=
  match n with
  | Int.ofNat m => (Nat.toDigits 10 m).map b
  | Int.negSucc m => b '-' :: (Nat.toDigits 10 (m + 1)).map b

end fmt

/-! ## Package `net/url` -/

namespace net.url

/-- The places of a URL that `escape` and `unescape` distinguish. -/
inductive encoding where
  | encodePath
  | encodePathSegment
  | encodeHost
  | encodeZone
  | encodeUserPassword
  | encodeQueryComponent
  | encodeFragment
deriving DecidableEq, Repr

/-- The index expression `"0123456789ABCDEF"[n]`, for `n < 16`. -/
def upperhex (n : Byte) : Byte := (lit "0123456789ABCDEF").getD n.val 0

/-- The function `ishex`. -/
def ishex (c : Byte) : Bool :=
  (b '0' ≤ c && c ≤ b '9') || (b 'a' ≤ c && c ≤ b 'f') || (b 'A' ≤ c && c ≤ b 'F')

/-- The function `unhex`. -/
def unhex (c : Byte) : Byte :=
  if b '0' ≤ c ∧ c ≤ b '9' then c - b '0'
  else if b 'a' ≤ c ∧ c ≤ b 'f' then c - b 'a' + 10
  else if b 'A' ≤ c ∧ c ≤ b 'F' then c - b 'A' + 10
  else 0

/-- Letters and digits: the first test of `shouldEscape`. -/
def isAlnum (c : Byte) : Bool :=
  (b 'a' ≤ c && c ≤ b 'z') || (b 'A' ≤ c && c ≤ b 'Z') || (b '0' ≤ c && c ≤ b '9')

/-- The bytes `shouldEscape` lets through in a host: the sub-delimiters (39 is the
apostrophe), `: [ ] < >` and the double quote (34). -/
def hostAllowed : GoString :=
  [b '!', b '$', b '&', 39, b '(', b ')', b '*', b '+', b ',', b ';', b '=', b ':',
   b '[', b ']', b '<', b '>', 34]

/-- The reserved characters of RFC 3986 section 2.2 that `shouldEscape` switches on. -/
def reserved : GoString :=
  [b '$', b '&', b '+', b ',', b '/', b ':', b ';', b '=', b '?', b '@']

/-- The function `shouldEscape(c, mode)`: whether byte `c` is written as `%XX` in the
given place of a URL. -/
def shouldEscape (c : Byte) (mode : encoding) : Bool :=
  if isAlnum c then false
  else if (mode = .encodeHost ∨ mode = .encodeZone) ∧ c ∈ hostAllowed then false
  else if c = b '-' ∨ c = b '_' ∨ c = b '.' ∨ c = b '~' then false
  else if c ∈ reserved ∧ mode = .encodePath then c = b '?'
  else if c ∈ reserved ∧ mode = .encodePathSegment then
    c = b '/' ∨ c = b ';' ∨ c = b ',' ∨ c = b '?'
  else if c ∈ reserved ∧ mode = .encodeUserPassword then
    c = b '@' ∨ c = b '/' ∨ c = b '?' ∨ c = b ':'
  else if c ∈ reserved ∧ mode = .encodeQueryComponent then true
  else if c ∈ reserved ∧ mode = .encodeFragment then false
  else if mode = .encodeFragment ∧ (c = b '!' ∨ c = b '(' ∨ c = b ')' ∨ c = b '*') then false
  else true

/-- What `escape` writes for one byte: `+` for a space in a query component, `%XX` for a
byte that `shouldEscape`, the byte itself otherwise. -/
def escapeByte (c : Byte) (mode : encoding) : GoString :=
  if c = b ' ' ∧ mode = .encodeQueryComponent then [b '+']
  else if shouldEscape c mode then [b '%', upperhex (c >>> 4), upperhex (c &&& 15)]
  else [c]

/-- The function `escape(s, mode)`. Go counts first and returns `s` itself when nothing
is to be escaped; the byte-by-byte result is the same string. -/
def escape : GoString → encoding → GoString
  | [], _ => []
  | c :: rest, mode => escapeByte c mode ++ escape rest mode

/-- `QueryEscape(s)`. -/
def QueryEscape (s : GoString) : GoString := escape s .encodeQueryComponent

/-- The first loop of `unescape(s, mode)`: it checks that every `%` starts a well-formed
escape allowed in this place, and returns the error of the first that does not. -/
def unescapeCheck : GoString → encoding → Option GoError
  | [], _ => none
  | c :: rest, mode =>
    if c = b '%' then
      match rest with
      | h1 :: h2 :: rest2 =>
        if !ishex h1 || !ishex h2 then some (.EscapeError [c, h1, h2])
        else if mode = .encodeHost ∧ unhex h1 < 8 ∧ [c, h1, h2] ≠ lit "%25" then
          some (.EscapeError [c, h1, h2])
        else if mode = .encodeZone ∧ [c, h1, h2] ≠ lit "%25"
            ∧ (unhex h1 <<< 4 ||| unhex h2) ≠ b ' '
            ∧ shouldEscape (unhex h1 <<< 4 ||| unhex h2) .encodeHost then
          some (.EscapeError [c, h1, h2])
        else unescapeCheck rest2 mode
      | _ => some (.EscapeError (c :: rest))
    else if (mode = .encodeHost ∨ mode = .encodeZone) ∧ c < 128 ∧ c ≠ b '+'
        ∧ shouldEscape c .encodeHost then
      some (.InvalidHostError [c])
    else unescapeCheck rest mode

/-- The second loop of `unescape(s, mode)`, run on a string that passed the first: `%XX`
becomes the byte, `+` becomes a space in a query component. -/
def unescapeBuild : GoString → encoding → GoString
  | [], _ => []
  | c :: rest, mode =>
    if c = b '%' then
      match rest with
      | h1 :: h2 :: rest2 => (unhex h1 <<< 4 ||| unhex h2) :: unescapeBuild rest2 mode
      | _ => []
    else if c = b '+' ∧ mode = .encodeQueryComponent then b ' ' :: unescapeBuild rest mode
    else c :: unescapeBuild rest mode

/-- The function `unescape(s, mode)`. When the string holds no `%` (and no `+` in a query
component) Go returns `s` itself, which is what the second loop builds. -/
def unescape (s : GoString) (mode : encoding) : Except GoError GoString :=
  match unescapeCheck s mode with
  | some e => .error e
  | none => .ok (unescapeBuild s mode)


/-- The type `Userinfo`: user name and optional password of a URL. -/
structure Userinfo where
  username : GoString
  password : GoString
  passwordSet : Bool
deriving DecidableEq, Repr

/-- The type `URL`. A `nil` `User` is `none`; every other field has Go's zero value as
its default. -/
structure URL where
  Scheme : GoString := []
  Opaque : GoString := []
  User : Option Userinfo := none
  Host : GoString := []
  Path : GoString := []
  RawPath : GoString := []
  OmitHost : Bool := false
  ForceQuery : Bool := false
  RawQuery : GoString := []
  Fragment : GoString := []
  RawFragment : GoString := []
deriving DecidableEq, Repr

/-- The type `Values`: `map[string][]string`, as an association list whose first entry
for a key is the map's entry. -/
abbrev Values := List (GoString × List GoString)

/-- The order `<=` of Go strings: bytewise lexicographic. -/
def strLe : GoString → GoString → Bool
  | [], _ => true
  | _ :: _, [] => false
  | x :: xs, y :: ys => if x < y then true else if y < x then false else strLe xs ys

/-- The keys of a map, each once, in sorted order (`slices.Sort(keys)`). -/
def sortedKeys (v : Values) : List GoString :=
  ((v.map Prod.fst).dedup).insertionSort (fun x y => strLe x y = true)

/-- The map lookup `v[k]`: the values of key `k`, empty when the key is absent. -/
def Values.get (v : Values) (k : GoString) : List GoString :=
  match v.lookup k with
  | some vs => vs
  | none => []

/-- The inner loop of `Values.Encode`: appends `key=value` for every value of one key to
the buffer, with `&` before each pair once the buffer is not empty. -/
def encodePairs (keyEscaped : GoString) : List GoString → GoString → GoString
  | [], buf => buf
  | v :: vs, buf =>
    encodePairs keyEscaped vs
      ((if buf.length > 0 then buf ++ [b '&'] else buf) ++ keyEscaped ++ [b '='] ++ QueryEscape v)

/-- The outer loop of `Values.Encode` over the sorted keys. -/
def encodeKeys (v : Values) : List GoString → GoString → GoString
  | [], buf => buf
  | k :: ks, buf => encodeKeys v ks (encodePairs (QueryEscape k) (v.get k) buf)

/-- The method `Values.Encode`: the parameters in URL-encoded form (`bar=baz&foo=quux`),
sorted by key. -/
def Values.Encode (v : Values) : GoString := encodeKeys v (sortedKeys v) []

/-- The function `validEncoded(s, mode)`. 39 is the apostrophe. -/
def validEncoded (s : GoString) (mode : encoding) : Bool :=
  s.all (fun c =>
    if c ∈ [b '!', b '$', b '&', 39, b '(', b ')', b '*', b '+', b ',', b ';', b '=',
        b ':', b '@', b '[', b ']', b '%'] then true
    else !shouldEscape c mode)

/-- The method `URL.EscapedPath`. -/
def URL.EscapedPath (u : URL) : GoString :=
  if u.RawPath ≠ [] ∧ validEncoded u.RawPath .encodePath
      ∧ unescape u.RawPath .encodePath = .ok u.Path then u.RawPath
  else if u.Path = lit "*" then lit "*"
  else escape u.Path .encodePath

/-- The method `URL.RequestURI`: the `path?query` (or `opaque?query`) text that goes on
the request line of an HTTP request. An empty path is written `/`. -/
def URL.RequestURI (u : URL) : GoString :=
  let result :=
    if u.Opaque = [] then
      (if u.EscapedPath = [] then lit "/" else u.EscapedPath)
    else if strings.HasPrefix u.Opaque (lit "//") then u.Scheme ++ lit ":" ++ u.Opaque
    else u.Opaque
  if u.ForceQuery ∨ u.RawQuery ≠ [] then result ++ lit "?" ++ u.RawQuery else result

/-- The function `stringContainsCTLByte`. -/
def stringContainsCTLByte (s : GoString) : Bool := s.any (fun c => c < b ' ' || c = 127)

/-- The loop of `getScheme` from index `i` on: `seen` is `rawURL[:i]`, the second list
is `rawURL[i:]`. -/
def getSchemeFrom (rawURL : GoString) : GoString → GoString → Except GoError (GoString × GoString)
  | _, [] => .ok ([], rawURL)
  | seen, c :: rest =>
    if (b 'a' ≤ c ∧ c ≤ b 'z') ∨ (b 'A' ≤ c ∧ c ≤ b 'Z') then
      getSchemeFrom rawURL (seen ++ [c]) rest
    else if (b '0' ≤ c ∧ c ≤ b '9') ∨ c = b '+' ∨ c = b '-' ∨ c = b '.' then
      if seen = [] then .ok ([], rawURL) else getSchemeFrom rawURL (seen ++ [c]) rest
    else if c = b ':' then
      if seen = [] then .error (.errorString (lit "missing protocol scheme"))
      else .ok (seen, rest)
    else .ok ([], rawURL)

/-- The function `getScheme(rawURL)`: the scheme before the first `:` and the rest, or
no scheme and the whole text. -/
def getScheme (rawURL : GoString) : Except GoError (GoString × GoString) :=
  getSchemeFrom rawURL [] rawURL

/-- The function `validOptionalPort(port)`: empty, or `:` and digits. -/
def validOptionalPort : GoString → Bool
  | [] => true
  | c :: digits => c = b ':' && digits.all (fun d => b '0' ≤ d && d ≤ b '9')

/-- The function `parseHost(host)`. -/
def parseHost (host : GoString) : Except GoError GoString :=
  if strings.HasPrefix host (lit "[") then
    match strings.LastIndex host (b ']') with
    | none => .error (.errorString (lit "missing ']' in host"))
    | some i =>
      if !validOptionalPort (host.drop (i + 1)) then
        .error (.quoted (lit "invalid port ") (host.drop (i + 1)) (lit " after host"))
      else
        match strings.Index (host.take i) (lit "%25") with
        | some zone =>
          match unescape (host.take zone) .encodeHost with
          | .error e => .error e
          | .ok host1 =>
            match unescape ((host.take i).drop zone) .encodeZone with
            | .error e => .error e
            | .ok host2 =>
              match unescape (host.drop i) .encodeHost with
              | .error e => .error e
              | .ok host3 => .ok (host1 ++ host2 ++ host3)
        | none => unescape host .encodeHost
  else
    match strings.LastIndex host (b ':') with
    | some i =>
      if !validOptionalPort (host.drop i) then
        .error (.quoted (lit "invalid port ") (host.drop i) (lit " after host"))
      else unescape host .encodeHost
    | none => unescape host .encodeHost

/-- The function `validUserinfo(s)`. 39 is the apostrophe. -/
def validUserinfo (s : GoString) : Bool :=
  s.all (fun r => isAlnum r ||
    r ∈ [b '-', b '.', b '_', b ':', b '~', b '!', b '$', b '&', 39, b '(', b ')', b '*',
      b '+', b ',', b ';', b '=', b '%', b '@'])

/-- The user part of `parseAuthority`, after the host was parsed and the text before the
last `@` was found valid. -/
def parseUserinfo (userinfo : GoString) : Except GoError Userinfo :=
  if !strings.Contains userinfo (b ':') then
    match unescape userinfo .encodeUserPassword with
    | .error e => .error e
    | .ok u => .ok { username := u, password := [], passwordSet := false }
  else
    match unescape (strings.Cut userinfo (b ':')).1 .encodeUserPassword with
    | .error e => .error e
    | .ok username =>
      match unescape (strings.Cut userinfo (b ':')).2.1 .encodeUserPassword with
      | .error e => .error e
      | .ok password => .ok { username := username, password := password, passwordSet := true }

/-- The function `parseAuthority(authority)`: user and host of `[user[:password]@]host`. -/
def parseAuthority (authority : GoString) : Except GoError (Option Userinfo × GoString) :=
  match strings.LastIndex authority (b '@') with
  | none =>
    match parseHost authority with
    | .error e => .error e
    | .ok host => .ok (none, host)
  | some i =>
    match parseHost (authority.drop (i + 1)) with
    | .error e => .error e
    | .ok host =>
      if !validUserinfo (authority.take i) then
        .error (.errorString (lit "net/url: invalid userinfo"))
      else
        match parseUserinfo (authority.take i) with
        | .error e => .error e
        | .ok user => .ok (some user, host)

/-- The method `URL.setPath(p)`: sets `Path` to the unescaped `p`, and `RawPath` to `p`
when `p` is not the default escaping of `Path`. -/
def URL.setPath (u : URL) (p : GoString) : Except GoError URL :=
  match unescape p .encodePath with
  | .error e => .error e
  | .ok path =>
    .ok { u with Path := path, RawPath := if p = escape path .encodePath then [] else p }

/-- The method `URL.setFragment(f)`. -/
def URL.setFragment (u : URL) (f : GoString) : Except GoError URL :=
  match unescape f .encodeFragment with
  | .error e => .error e
  | .ok frag =>
    .ok { u with Fragment := frag,
                 RawFragment := if f = escape frag .encodeFragment then [] else f }

/-- The tail of `parse`, from the test `!strings.HasPrefix(rest, "/")` on: `url` holds
the scheme and the query already, `rest` is what stands between them. -/
def parseRest (url : URL) (rest : GoString) (viaRequest : Bool) : Except GoError URL :=
  if ¬ strings.HasPrefix rest (lit "/") ∧ url.Scheme ≠ [] then
    .ok { url with Opaque := rest }
  else if ¬ strings.HasPrefix rest (lit "/") ∧ viaRequest then
    .error (.errorString (lit "invalid URI for request"))
  else if ¬ strings.HasPrefix rest (lit "/")
      ∧ strings.Contains (strings.Cut rest (b '/')).1 (b ':') then
    .error (.errorString (lit "first path segment in URL cannot contain colon"))
  else if (url.Scheme ≠ [] ∨ (¬ viaRequest ∧ ¬ strings.HasPrefix rest (lit "///")))
      ∧ strings.HasPrefix rest (lit "//") then
    match parseAuthority (strings.Cut (rest.drop 2) (b '/')).1 with
    | .error e => .error e
    | .ok (user, host) =>
      URL.setPath { url with User := user, Host := host }
        ((rest.drop 2).drop (strings.Cut (rest.drop 2) (b '/')).1.length)
  else if url.Scheme ≠ [] ∧ strings.HasPrefix rest (lit "/") then
    URL.setPath { url with OmitHost := true } rest
  else URL.setPath url rest

/-- The function `parse(rawURL, viaRequest)`: parses a URL without fragment. -/
def parse (rawURL : GoString) (viaRequest : Bool) : Except GoError URL :=
  if stringContainsCTLByte rawURL then
    .error (.errorString (lit "net/url: invalid control character in URL"))
  else if rawURL = [] ∧ viaRequest then .error (.errorString (lit "empty url"))
  else if rawURL = lit "*" then .ok { Path := lit "*" }
  else
    match getScheme rawURL with
    | .error e => .error e
    | .ok (scheme, rest) =>
      if strings.HasSuffix rest (lit "?") ∧ strings.Count rest (b '?') = 1 then
        parseRest { Scheme := strings.ToLower scheme, ForceQuery := true } rest.dropLast
          viaRequest
      else
        parseRest { Scheme := strings.ToLower scheme, RawQuery := (strings.Cut rest (b '?')).2.1 }
          (strings.Cut rest (b '?')).1 viaRequest

/-- The function `Parse(rawURL)`: cuts off the fragment, parses the rest, then sets the
fragment. Errors are wrapped in `*url.Error` with operation `parse`. -/
def Parse (rawURL : GoString) : Except GoError URL :=
  match parse (strings.Cut rawURL (b '#')).1 false with
  | .error err => .error (.urlError (lit "parse") (strings.Cut rawURL (b '#')).1 err)
  | .ok url =>
    if (strings.Cut rawURL (b '#')).2.1 = [] then .ok url
    else
      match url.setFragment (strings.Cut rawURL (b '#')).2.1 with
      | .error err => .error (.urlError (lit "parse") rawURL err)
      | .ok url2 => .ok url2

/-- A byte that `Parse` reads as plain text of a request URI: not `?`, not `#` and not a
control byte. Used to state what `escape` and `Values.Encode` write. -/
def isPlain (c : Byte) : Bool := c != b '?' && c != b '#' && !(c < b ' ' || c = 127)

end net.url

/-! ## Package `net/http` -/

namespace net.http

/-- The type `Header`: `map[string][]string`, as an association list. -/
abbrev Header := List (GoString × List GoString)

/-- The type `Request`, with the fields `NewRequest` fills in. `Body` is `none` for a
`nil` body and otherwise the bytes the reader supplies. -/
structure Request where
  Method : GoString
  URL : net.url.URL
  Proto : GoString
  ProtoMajor : Int
  ProtoMinor : Int
  Header : Header
  Body : Option GoString
  Host : GoString
deriving DecidableEq, Repr

/-- A response body (`io.ReadCloser`) in the state in which `Client.Do` hands it over:
`data` is what reading it to its end delivers, `readErr` the error that ended the
reading, `none` when it ended with `io.EOF`, and `closes` the number of times `Close`
has been called on it so far, that is by `Do` itself: 0 for a body that is still open. -/
structure Body where
  data : GoString
  readErr : Option GoError
  closes : Nat := 0
deriving DecidableEq, Repr

/-- The type `Response`, with the two fields `get` looks at. -/
structure Response where
  StatusCode : Int
  Body : Body
deriving DecidableEq, Repr

/-- The type `Client`. What `Do` answers for a request is the client's (and the
network's) business: it is a field, and every function of this type is a client. The
two results are Go's `(*Response, error)`; what `Do` did to the response body before it
returned is recorded in the body (`Body.closes`). -/
structure Client where
  Do : Request → Option Response × Option GoError

/-- What the documentation of `Client.Do` says of its two results: "If the returned error
is nil, the Response will contain a non-nil Body which the user is expected to close",
and "A non-nil Response with a non-nil error only occurs when CheckRedirect fails, and
even then the returned Response.Body is already closed." So a response without error has
an open body, a response that comes with an error has a body that `Do` has closed once,
and a nil response never comes with a nil error. -/
def asDocumented : Option Response × Option GoError → Bool
  | (some resp, none) => resp.Body.closes == 0
  | (some resp, some _) => resp.Body.closes == 1
  | (none, some _) => true
  | (none, none) => false

/-- The table `isTokenTable` of `httpguts.IsTokenRune`: the bytes of an HTTP token.
39 is the apostrophe, 96 the backquote. -/
def isTokenByte (c : Byte) : Bool :=
  net.url.isAlnum c ||
    c ∈ [b '!', b '#', b '$', b '%', b '&', 39, b '*', b '+', b '-', b '.', b '^', b '_',
      96, b '|', b '~']

/-- The function `validMethod(method)`. -/
def validMethod (method : GoString) : Bool :=
  decide (method.length > 0) && method.all isTokenByte

/-- The function `hasPort(s)` of `net/http`. -/
def hasPort (s : GoString) : Bool :=
  match strings.LastIndex s (b ':'), strings.LastIndex s (b ']') with
  | some i, some j => decide (i > j)
  | some _, none => true
  | none, _ => false

/-- The function `removeEmptyPort(host)`. -/
def removeEmptyPort (host : GoString) : GoString :=
  if hasPort host then strings.TrimSuffix host (b ':') else host

/-- The function `NewRequest(method, url, body)`: an empty method means `GET`, the method
must be a token, and the URL text is parsed with `url.Parse`. -/
def NewRequest (method urlStr : GoString) (body : Option GoString) :
    Except GoError Request :=
  if ¬ validMethod (if method = [] then lit "GET" else method) then
    .error (.quoted (lit "net/http: invalid method ") method [])
  else
    match net.url.Parse urlStr with
    | .error err => .error err
    | .ok u =>
      .ok { Method := if method = [] then lit "GET" else method
            URL := { u with Host := removeEmptyPort u.Host }
            Proto := lit "HTTP/1.1"
            ProtoMajor := 1
            ProtoMinor := 1
            Header := []
            Body := body
            Host := removeEmptyPort u.Host }

end net.http

/-! ## Package `nextrip` -/

namespace nextrip

/-- The type `Config`. -/
structure Config where
  /-- Address is the address of the NexTrip API server -/
  Address : GoString
  /-- Scheme is the URI scheme for the NexTrip API server -/
  Scheme : GoString
  /-- BasePath is the base path of all API requests -/
  BasePath : GoString
  /-- HttpClient is the client to use. Default will be used if not provided. -/
  HttpClient : Option net.http.Client

/-- A Client manages communication with the Nextrip API. -/
structure Client where
  config : Config

/-- The type `request`. The field `config` points at the client's configuration in Go;
here it is that configuration. -/
structure request where
  config : Config
  method : GoString
  url : net.url.URL
  params : net.url.Values
  body : Option GoString
  header : net.http.Header

/-- The local `defaultConfig` of `NewClient`. -/
def defaultConfig : Config :=
  { Address := lit "svc.metrotransit.org"
    Scheme := lit "http"
    BasePath := lit "/NexTrip"
    HttpClient := none }

/-- The assignment `config.Address = defaultConfig.Address` under its guard. -/
def fillAddress (config : Config) : Config :=
  if config.Address.length = 0 then { config with Address := defaultConfig.Address } else config

/-- The assignment `config.Scheme = defaultConfig.Scheme` under its guard. -/
def fillScheme (config : Config) : Config :=
  if config.Scheme.length = 0 then { config with Scheme := defaultConfig.Scheme } else config

/-- The assignment `config.HttpClient = &http.Client{}` under its guard; `zero` is the
value `http.Client{}`. -/
def fillHttpClient (zero : net.http.Client) (config : Config) : Config :=
  match config.HttpClient with
  | none => { config with HttpClient := some zero }
  | some _ => config

/-- The function `NewClient(config *Config) *Client`. The argument is a pointer: `none`
is `nil`, and reading `config.Address` through it panics. The three assignments write
through the pointer, so the result is the client together with the caller's
configuration as the call leaves it. `zero` is the value `http.Client{}`, a client with
no settings of its own. -/
def NewClient (zero : net.http.Client) : Option Config → Except Panic (Client × Config)
  | none => .error .nilDereference
  | some config =>
    .ok ({ config := fillHttpClient zero (fillScheme (fillAddress config)) },
         fillHttpClient zero (fillScheme (fillAddress config)))

/-- The method `(c *Client) newRequest(method, path string) *request`. -/
def Client.newRequest (c : Client) (method path : GoString) : request :=
  { config := c.config
    method := method
    url := { Scheme := c.config.Scheme
             Host := c.config.Address
             Path := strings.Join [c.config.BasePath, path] [] }
    params := []
    body := none
    header := [] }

/-- The method `(r *request) toHTTP() (*http.Request, error)`. It writes the encoded
parameters into `r.url.RawQuery`, so the result is the request as the call leaves it
together with Go's two results. -/
def request.toHTTP (r : request) : request × Except GoError net.http.Request :=
  let r1 : request := { r with url := { r.url with RawQuery := net.url.Values.Encode r.params } }
  match net.http.NewRequest r1.method r1.url.RequestURI r1.body with
  | .error err => (r1, .error err)
  | .ok req =>
    (r1, .ok { req with URL := { req.URL with Host := r1.url.Host, Scheme := r1.url.Scheme }
                        Host := r1.url.Host
                        Header := r1.header })

/-- The method `(c *Client) doRequest(r *request) (*http.Response, error)`. Calling `Do`
on a `nil` `HttpClient` panics. -/
def Client.doRequest (c : Client) (r : request) :
    Except Panic (Option net.http.Response × Option GoError) :=
  match r.toHTTP.2 with
  | .error err => .ok (none, some err)
  | .ok req =>
    match c.config.HttpClient with
    | none => .error .nilDereference
    | some h => .ok (h.Do req)

/-- What `get` does to the response body, in order: `copy` is `io.Copy(&buf, resp.Body)`,
`decode` is the run of the JSON decoder on it, `close` is `resp.Body.Close()`. -/
inductive BodyEvent where
  | copy
  | decode
  | close
deriving DecidableEq, Repr

/-- What a call of `get` leaves behind: the error it returns (`none` for `nil`), the
output target, and what it did to the response body. -/
structure GetResult (α : Type) where
  err : Option GoError
  out : α
  trace : List BodyEvent

/-- The number of `Close` calls the response body has seen when `get` returns: those
`Do` made before it handed the response over, and those `get` made after. No response,
no body, no call. -/
def closesInAll {α : Type} (resp : Option net.http.Response) (g : GetResult α) : Nat :=
  match resp with
  | some r => r.Body.closes + g.trace.count .close
  | none => 0

/-- The function `decodeBody(resp, out)`. `decode` stands for
`json.NewDecoder(resp.Body).Decode(out)`: from the body and the target as it is, the
target as the decoder leaves it and the decoder's error. -/
def decodeBody {α : Type} (decode : net.http.Body → α → α × Option GoError)
    (resp : net.http.Response) (out : α) : α × Option GoError :=
  decode resp.Body out

/-- The message of `fmt.Errorf("Unexpected response code: %d (%s)", status, body)`. -/
def unexpectedResponse (status : Int) (body : GoString) : GoError :=
  .errorString (lit "Unexpected response code: " ++ fmt.formatInt status ++ lit " (" ++ body
    ++ lit ")")

/-- The method `(c *Client) get(endpoint string, out interface{}) error`. A `nil`
response with a `nil` error makes the read of `resp.StatusCode` panic. -/
def Client.get {α : Type} (decode : net.http.Body → α → α × Option GoError) (c : Client)
    (endpoint : GoString) (out : α) : Except Panic (GetResult α) :=
  match c.doRequest (c.newRequest (lit "GET") endpoint) with
  | .error p => .error p
  | .ok (resp, some err) =>
    match resp with
    | some _ => .ok { err := some err, out := out, trace := [.close] }
    | none => .ok { err := some err, out := out, trace := [] }
  | .ok (none, none) => .error .nilDereference
  | .ok (some resp, none) =>
    if resp.StatusCode ≠ 200 then
      .ok { err := some (unexpectedResponse resp.StatusCode resp.Body.data)
            out := out
            trace := [.copy, .close] }
    else
      .ok { err := (decodeBody decode resp out).2
            out := (decodeBody decode resp out).1
            trace := [.decode, .close] }

end nextrip

/-! ## Sample values

Concrete clients, decoders and responses at which the theorems below are instantiated. -/

namespace nextrip

/-- A client that answers every request with a connection error and no response. -/
def offline : net.http.Client := { Do := fun _ => (none, some (.other 0)) }

/-- A client that answers every request with the given response and no error. -/
def answering (resp : net.http.Response) : net.http.Client := { Do := fun _ => (some resp, none) }

/-- A client that answers every request with the given response and an error as well,
the way `http.Client.Do` does when `CheckRedirect` refuses a redirect: it has closed the
response body before it returns. -/
def failingWith (resp : net.http.Response) : net.http.Client :=
  { Do := fun _ =>
      (some { resp with Body := { resp.Body with closes := resp.Body.closes + 1 } },
       some (.other 7)) }

/-- A response with the given status and body, read to its end without error; the body
is open. -/
def response (status : Int) (body : GoString) : net.http.Response :=
  { StatusCode := status, Body := { data := body, readErr := none } }

/-- A configuration with every field at its zero value. -/
def emptyConfig : Config := { Address := [], Scheme := [], BasePath := [], HttpClient := none }

/-- A client for `example.org` with base path `/NexTrip` and the given HTTP client. -/
def sampleClient (h : net.http.Client) : Client :=
  { config := { Address := lit "example.org", Scheme := lit "https", BasePath := lit "/NexTrip",
                HttpClient := some h } }

/-- The transport-level request that `sampleClient` sends for the endpoint `/Routes`. -/
def sampleRequest : net.http.Request :=
  { Method := lit "GET"
    URL := { Scheme := lit "https", Host := lit "example.org", Path := lit "/NexTrip/Routes" }
    Proto := lit "HTTP/1.1"
    ProtoMajor := 1
    ProtoMinor := 1
    Header := []
    Body := none
    Host := lit "example.org" }

/-- Query parameters `format=json` and `b=x y`. -/
def sampleParams : net.url.Values := [(lit "format", [lit "json"]), (lit "b", [lit "x y"])]

/-- One header, `Accept: application/json`. -/
def sampleHeader : net.http.Header := [(lit "Accept", [lit "application/json"])]

/-- The transport-level request that `sampleClient` sends for the endpoint `/Routes` with
`sampleParams` and `sampleHeader`. -/
def sampleQueryRequest : net.http.Request :=
  { Method := lit "GET"
    URL := { Scheme := lit "https", Host := lit "example.org", Path := lit "/NexTrip/Routes",
             RawQuery := lit "b=x+y&format=json" }
    Proto := lit "HTTP/1.1"
    ProtoMajor := 1
    ProtoMinor := 1
    Header := sampleHeader
    Body := none
    Host := lit "example.org" }

/-- A client for `example.org` with an empty base path and no HTTP client. -/
def bareClient : Client :=
  { config := { Address := lit "example.org", Scheme := lit "https", BasePath := [],
                HttpClient := none } }

/-- An output target shaped `{a: int}`. -/
structure Target where
  a : Int
deriving DecidableEq, Repr

/-- A decoder for `Target` that knows one document, `{"a":1}`, and fails with an error
of its own on every other body, leaving the target as it was. -/
def toyDecode (body : net.http.Body) (out : Target) : Target × Option GoError :=
  if body.data = lit "\x7b\"a\":1\x7d" then ({ a := 1 }, none) else (out, some (.other 42))

end nextrip

/-! ## Theorems about `NewClient` and `newRequest` -/

namespace nextrip

theorem fillAddress_Address (config : Config) :
    (fillAddress config).Address
      = if config.Address = [] then lit "svc.metrotransit.org" else config.Address := by
  unfold fillAddress
  by_cases h : config.Address = [] <;> simp [h, defaultConfig]

theorem fillScheme_Scheme (config : Config) :
    (fillScheme config).Scheme = if config.Scheme = [] then lit "http" else config.Scheme := by
  unfold fillScheme
  by_cases h : config.Scheme = [] <;> simp [h, defaultConfig]

theorem fillAddress_rest (config : Config) :
    (fillAddress config).Scheme = config.Scheme ∧ (fillAddress config).BasePath = config.BasePath
      ∧ (fillAddress config).HttpClient = config.HttpClient := by
  unfold fillAddress
  split <;> simp

theorem fillScheme_rest (config : Config) :
    (fillScheme config).Address = config.Address ∧ (fillScheme config).BasePath = config.BasePath
      ∧ (fillScheme config).HttpClient = config.HttpClient := by
  unfold fillScheme
  split <;> simp

theorem fillHttpClient_rest (zero : net.http.Client) (config : Config) :
    (fillHttpClient zero config).Address = config.Address
      ∧ (fillHttpClient zero config).Scheme = config.Scheme
      ∧ (fillHttpClient zero config).BasePath = config.BasePath := by
  unfold fillHttpClient
  split <;> simp

theorem fillHttpClient_HttpClient (zero : net.http.Client) (config : Config) :
    (fillHttpClient zero config).HttpClient
      = some (match config.HttpClient with | some h => h | none => zero) := by
  unfold fillHttpClient
  cases h : config.HttpClient <;> simp [h]

theorem lit_address_ne_nil : lit "svc.metrotransit.org" ≠ [] := by decide

theorem lit_scheme_ne_nil : lit "http" ≠ [] := by decide

/-- C1. For every configuration passed to `NewClient` the call returns a client whose
Address is `svc.metrotransit.org` when the supplied Address is empty and the supplied
Address otherwise, whose Scheme is `http` when the supplied Scheme is empty and the
supplied Scheme otherwise; so neither is ever empty. -/
theorem NewClient_defaults (zero : net.http.Client) (config : Config) :
    ∃ client final, NewClient zero (some config) = .ok (client, final)
      ∧ client.config.Address
          = (if config.Address = [] then lit "svc.metrotransit.org" else config.Address)
      ∧ client.config.Scheme = (if config.Scheme = [] then lit "http" else config.Scheme)
      ∧ client.config.Address ≠ [] ∧ client.config.Scheme ≠ [] := by
  refine ⟨_, _, rfl, ?_, ?_, ?_, ?_⟩
  · simp only [(fillHttpClient_rest _ _).1, (fillScheme_rest _).1, fillAddress_Address]
  · simp only [(fillHttpClient_rest _ _).2.1, fillScheme_Scheme, (fillAddress_rest _).1]
  · simp only [(fillHttpClient_rest _ _).1, (fillScheme_rest _).1, fillAddress_Address]
    by_cases h : config.Address = [] <;> simp [h, lit_address_ne_nil]
  · simp only [(fillHttpClient_rest _ _).2.1, fillScheme_Scheme, (fillAddress_rest _).1]
    by_cases h : config.Scheme = [] <;> simp [h, lit_scheme_ne_nil]

/-- C2. For every client, method and path, `newRequest` returns a pending request with
the given method, a URL whose scheme and host are the client's Scheme and Address and
whose path is the plain concatenation of BasePath and path (every other URL field at
its zero value), no parameters, no headers and no body; base path `/NexTrip/` and path
`/Routes` give `/NexTrip//Routes`. -/
theorem newRequest_fields (c : Client) (method path : GoString) :
    (c.newRequest method path).method = method
      ∧ (c.newRequest method path).url
          = { Scheme := c.config.Scheme, Host := c.config.Address,
              Path := c.config.BasePath ++ path }
      ∧ (c.newRequest method path).params = []
      ∧ (c.newRequest method path).header = []
      ∧ (c.newRequest method path).body = none
      ∧ ((sampleClient offline).newRequest method (lit "/Routes")).url.Path
          = lit "/NexTrip/Routes"
      ∧ (Client.newRequest { config := { emptyConfig with BasePath := lit "/NexTrip/" } } method
            (lit "/Routes")).url.Path = lit "/NexTrip//Routes" := by
  refine ⟨rfl, ?_, rfl, rfl, rfl, rfl, rfl⟩
  simp [Client.newRequest, strings.Join]

/-- C7, the input that breaks it: `NewClient(nil)` panics on the read of
`config.Address`. -/
theorem NewClient_nil_panics : NewClient offline none = .error Panic.nilDereference := rfl

/-- C7, amended. For every non-nil `*Config`, whatever its fields hold, `NewClient`
returns a client, without error or panic. -/
theorem NewClient_total (zero : net.http.Client) (config : Config) :
    ∃ client final, NewClient zero (some config) = .ok (client, final) :=
  ⟨_, _, rfl⟩

/-- C8. `NewClient` leaves BasePath as supplied: the client's BasePath is the input's, an
empty one stays empty and is not replaced by the default `/NexTrip`, and a request built
by `newRequest` on such a client has the endpoint path alone as its path. -/
theorem NewClient_keeps_BasePath (zero : net.http.Client) (config : Config) :
    ∃ client final, NewClient zero (some config) = .ok (client, final)
      ∧ client.config.BasePath = config.BasePath
      ∧ (config.BasePath = [] →
          client.config.BasePath = [] ∧ client.config.BasePath ≠ defaultConfig.BasePath
            ∧ ∀ method path, (client.newRequest method path).url.Path = path) := by
  have hb : (fillHttpClient zero (fillScheme (fillAddress config))).BasePath = config.BasePath := by
    rw [(fillHttpClient_rest _ _).2.2, (fillScheme_rest _).2.1, (fillAddress_rest _).2.1]
  refine ⟨_, _, rfl, hb, ?_⟩
  intro h
  refine ⟨by rw [hb, h], ?_, ?_⟩
  · rw [hb, h]; decide
  · intro method path
    simp [Client.newRequest, strings.Join, hb, h]

/-- C10. `NewClient` writes the defaults into the caller's configuration: after the call
the caller's Address, Scheme and HttpClient are those stored in the returned client (an
empty Address or Scheme has become the default), its BasePath is untouched, and a second
`NewClient` on that configuration gives a client with the same Address, Scheme, BasePath
and HttpClient. -/
theorem NewClient_fills_in_place (zero zero2 : net.http.Client) (config : Config) :
    ∃ client final, NewClient zero (some config) = .ok (client, final)
      ∧ final.Address = client.config.Address
      ∧ final.Scheme = client.config.Scheme
      ∧ final.HttpClient = client.config.HttpClient
      ∧ final.HttpClient ≠ none
      ∧ final.BasePath = config.BasePath
      ∧ (config.Address = [] → final.Address = lit "svc.metrotransit.org")
      ∧ (config.Scheme = [] → final.Scheme = lit "http")
      ∧ ∃ client2 final2, NewClient zero2 (some final) = .ok (client2, final2)
          ∧ client2.config.Address = client.config.Address
          ∧ client2.config.Scheme = client.config.Scheme
          ∧ client2.config.BasePath = client.config.BasePath
          ∧ client2.config.HttpClient = client.config.HttpClient
          ∧ final2 = final := by
  have hF : NewClient zero (some config)
      = .ok (⟨fillHttpClient zero (fillScheme (fillAddress config))⟩,
             fillHttpClient zero (fillScheme (fillAddress config))) := rfl
  have ha : (fillHttpClient zero (fillScheme (fillAddress config))).Address
      = if config.Address = [] then lit "svc.metrotransit.org" else config.Address := by
    rw [(fillHttpClient_rest _ _).1, (fillScheme_rest _).1, fillAddress_Address]
  have hs : (fillHttpClient zero (fillScheme (fillAddress config))).Scheme
      = if config.Scheme = [] then lit "http" else config.Scheme := by
    rw [(fillHttpClient_rest _ _).2.1, fillScheme_Scheme, (fillAddress_rest _).1]
  generalize fillHttpClient zero (fillScheme (fillAddress config)) = final at hF ha hs
  have hfin : final.HttpClient ≠ none ∧ final.BasePath = config.BasePath := by
    have h0 : NewClient zero (some config)
        = .ok (⟨fillHttpClient zero (fillScheme (fillAddress config))⟩,
               fillHttpClient zero (fillScheme (fillAddress config))) := rfl
    rw [hF] at h0
    simp only [Except.ok.injEq, Prod.mk.injEq] at h0
    rw [h0.2, fillHttpClient_HttpClient, (fillHttpClient_rest _ _).2.2, (fillScheme_rest _).2.1,
      (fillAddress_rest _).2.1]
    simp
  have hna : final.Address ≠ [] := by
    rw [ha]; by_cases h : config.Address = [] <;> simp [h, lit_address_ne_nil]
  have hns : final.Scheme ≠ [] := by
    rw [hs]; by_cases h : config.Scheme = [] <;> simp [h, lit_scheme_ne_nil]
  have hfix : fillHttpClient zero2 (fillScheme (fillAddress final)) = final := by
    have h1 : fillAddress final = final := by
      unfold fillAddress
      rw [if_neg]
      simpa using hna
    have h2 : fillScheme final = final := by
      unfold fillScheme
      rw [if_neg]
      simpa using hns
    rw [h1, h2]
    unfold fillHttpClient
    cases hc : final.HttpClient with
    | none => exact absurd hc hfin.1
    | some v => rfl
  refine ⟨⟨final⟩, final, hF, rfl, rfl, rfl, hfin.1, hfin.2, ?_, ?_, ?_⟩
  · intro he; rw [ha, if_pos he]
  · intro he; rw [hs, if_pos he]
  · refine ⟨⟨final⟩, final, ?_, rfl, rfl, rfl, rfl, rfl⟩
    simp only [NewClient, hfix]

end nextrip

/-! ## Theorems about `doRequest` and `get` -/

namespace nextrip

theorem sampleRequest_built (h : net.http.Client) :
    ((sampleClient h).newRequest (lit "GET") (lit "/Routes")).toHTTP.2 = .ok sampleRequest :=
  rfl

theorem doRequest_of_toHTTP (c : Client) (h : net.http.Client) (r : request)
    (req : net.http.Request) (hc : c.config.HttpClient = some h) (hreq : r.toHTTP.2 = .ok req) :
    c.doRequest r = .ok (h.Do req) := by
  simp [Client.doRequest, hreq, hc]

/-- C3. When the request is built, the client answers it with a response and no error,
and the response's status is not 200 (201 and 204 included), `get` returns the error
whose message is `Unexpected response code: `, the status in decimal, ` (`, the body
bytes and `)`; it only copies and closes the body, the decoder is not run and the
output target is as it was. -/
theorem get_unexpected_status {α : Type} (decode : net.http.Body → α → α × Option GoError)
    (c : Client) (h : net.http.Client) (endpoint : GoString) (out : α)
    (req : net.http.Request) (resp : net.http.Response)
    (hc : c.config.HttpClient = some h)
    (hreq : (c.newRequest (lit "GET") endpoint).toHTTP.2 = .ok req)
    (hdo : h.Do req = (some resp, none))
    (hs : resp.StatusCode ≠ 200) :
    c.get decode endpoint out
      = .ok { err := some (.errorString (lit "Unexpected response code: "
                ++ fmt.formatInt resp.StatusCode ++ lit " (" ++ resp.Body.data ++ lit ")"))
              out := out
              trace := [.copy, .close] } := by
  simp [Client.get, doRequest_of_toHTTP c h _ req hc hreq, hdo, hs, unexpectedResponse]

/-- C3 at status 404 with body `not found`: the message is
`Unexpected response code: 404 (not found)`, and the target still holds 5. -/
theorem get_unexpected_status_witness :
    (sampleClient (answering (response 404 (lit "not found")))).get
        toyDecode (lit "/Routes") ({ a := 5 } : Target)
      = .ok { err := some (.errorString (lit "Unexpected response code: 404 (not found)"))
              out := { a := 5 }
              trace := [.copy, .close] } :=
  get_unexpected_status toyDecode _
    (answering (response 404 (lit "not found")))
    (lit "/Routes") { a := 5 } sampleRequest _ rfl (sampleRequest_built _) rfl (by decide)

/-- C4. When the request is built and the client answers it with status 200 and no
error, `get` returns what decoding the body into the output target returns: the
decoder's error (none on success) and the target as the decoder left it; the body is
decoded, then closed. -/
theorem get_ok_decodes {α : Type} (decode : net.http.Body → α → α × Option GoError)
    (c : Client) (h : net.http.Client) (endpoint : GoString) (out : α)
    (req : net.http.Request) (resp : net.http.Response)
    (hc : c.config.HttpClient = some h)
    (hreq : (c.newRequest (lit "GET") endpoint).toHTTP.2 = .ok req)
    (hdo : h.Do req = (some resp, none))
    (hs : resp.StatusCode = 200) :
    c.get decode endpoint out
      = .ok { err := (decode resp.Body out).2
              out := (decode resp.Body out).1
              trace := [.decode, .close] } := by
  simp [Client.get, doRequest_of_toHTTP c h _ req hc hreq, hdo, hs, decodeBody]

/-- C4 at status 200 with body `{"a":1}` and a target shaped `{a: int}`: no error and
`a == 1`. -/
theorem get_ok_decodes_witness :
    (sampleClient (answering (response 200 (lit "\x7b\"a\":1\x7d")))).get
        toyDecode (lit "/Routes") ({ a := 5 } : Target)
      = .ok { err := none, out := { a := 1 }, trace := [.decode, .close] } :=
  get_ok_decodes toyDecode _
    (answering (response 200 (lit "\x7b\"a\":1\x7d")))
    (lit "/Routes") { a := 5 } sampleRequest _ rfl (sampleRequest_built _) rfl rfl

/-- C5. When the request is built and the client fails with error `e`, `get` returns
`e` itself and leaves the output target as it was; it neither copies nor decodes the
body, and its result does not depend on the response's status; it closes the body when
a response came with the error and does nothing at all to it when none came. -/
theorem get_transport_error {α : Type} (decode : net.http.Body → α → α × Option GoError)
    (c : Client) (h : net.http.Client) (endpoint : GoString) (out : α)
    (req : net.http.Request) (resp : Option net.http.Response) (e : GoError)
    (hc : c.config.HttpClient = some h)
    (hreq : (c.newRequest (lit "GET") endpoint).toHTTP.2 = .ok req)
    (hdo : h.Do req = (resp, some e)) :
    c.get decode endpoint out
      = .ok { err := some e, out := out, trace := if resp.isSome then [.close] else [] } := by
  cases resp <;> simp [Client.get, doRequest_of_toHTTP c h _ req hc hreq, hdo]

/-- C5 at a client that fails at the connection level: the error comes back as it is
and nothing is closed. -/
theorem get_transport_error_witness :
    (sampleClient offline).get toyDecode (lit "/Routes") ({ a := 5 } : Target)
      = .ok { err := some (.other 0), out := { a := 5 }, trace := [] } :=
  get_transport_error toyDecode _ offline (lit "/Routes") { a := 5 } sampleRequest none
    (.other 0) rfl (sampleRequest_built _) rfl

/-- C6, amended. Whatever `doRequest` returns within the documented behaviour of
`http.Client.Do`, `get` returns, and `get` itself has called `Close` on the response body
exactly once when there was a response (with or without a transport error, with status
200 or another, with a decode that succeeded or failed) and not at all when there was
none. With a response and no error the body has thereby been closed exactly once in
all; with a response and an error `Do` had closed it already, and the call of `get` is
the second one. -/
theorem get_close_count {α : Type} (decode : net.http.Body → α → α × Option GoError)
    (c : Client) (endpoint : GoString) (out : α)
    (resp : Option net.http.Response) (err : Option GoError)
    (hdo : c.doRequest (c.newRequest (lit "GET") endpoint) = .ok (resp, err))
    (hdoc : net.http.asDocumented (resp, err) = true) :
    ∃ g, c.get decode endpoint out = .ok g
      ∧ g.trace.count .close = (if resp.isSome then 1 else 0)
      ∧ closesInAll resp g
          = (if resp.isSome then (if err.isSome then 2 else 1) else 0) := by
  cases resp with
  | none =>
    cases err with
    | none => simp [net.http.asDocumented] at hdoc
    | some e =>
      exact ⟨{ err := some e, out := out, trace := [] }, by simp [Client.get, hdo], by simp,
        by simp [closesInAll]⟩
  | some r =>
    cases err with
    | some e =>
      have hr : r.Body.closes = 1 := by simpa [net.http.asDocumented] using hdoc
      exact ⟨{ err := some e, out := out, trace := [.close] }, by simp [Client.get, hdo],
        by simp, by simp [closesInAll, hr]⟩
    | none =>
      have hr : r.Body.closes = 0 := by simpa [net.http.asDocumented] using hdoc
      by_cases hs : r.StatusCode = 200
      · exact ⟨{ err := (decodeBody decode r out).2, out := (decodeBody decode r out).1,
                 trace := [.decode, .close] }, by simp [Client.get, hdo, hs], by simp,
          by simp [closesInAll, hr]⟩
      · exact ⟨{ err := some (unexpectedResponse r.StatusCode r.Body.data), out := out,
                 trace := [.copy, .close] }, by simp [Client.get, hdo, hs], by simp,
          by simp [closesInAll, hr]⟩

/-- C6 on four runs: status 200 with the body `{invalid json`, on which the decoder
fails: one `Close` in all; a connection error with no response: none; a status 500: one
`Close` in all; and a refused redirect, whose response `Do` has closed: one `Close` by
`get`, two in all. -/
theorem get_close_count_witness :
    (∃ g, (sampleClient (answering (response 200 (lit "\x7binvalid json")))).get
        toyDecode (lit "/Routes") ({ a := 5 } : Target) = .ok g
      ∧ g.trace.count .close = 1
      ∧ closesInAll (some (response 200 (lit "\x7binvalid json"))) g = 1)
    ∧ (∃ g, (sampleClient offline).get toyDecode (lit "/Routes") ({ a := 5 } : Target) = .ok g
      ∧ g.trace.count .close = 0
      ∧ closesInAll none g = 0)
    ∧ (∃ g, (sampleClient (answering (response 500 (lit "oops")))).get
        toyDecode (lit "/Routes") ({ a := 5 } : Target) = .ok g
      ∧ g.trace.count .close = 1
      ∧ closesInAll (some (response 500 (lit "oops"))) g = 1)
    ∧ (∃ g, (sampleClient (failingWith (response 302 []))).get
        toyDecode (lit "/Routes") ({ a := 5 } : Target) = .ok g
      ∧ g.trace.count .close = 1
      ∧ closesInAll
          (some { StatusCode := 302, Body := { data := [], readErr := none, closes := 1 } }) g
          = 2) :=
  ⟨get_close_count toyDecode _ (lit "/Routes") { a := 5 }
      (some (response 200 (lit "\x7binvalid json"))) none
      (doRequest_of_toHTTP _ _ _ _ rfl (sampleRequest_built _)) rfl,
   get_close_count toyDecode _ (lit "/Routes") { a := 5 } none (some (.other 0))
      (doRequest_of_toHTTP _ _ _ _ rfl (sampleRequest_built _)) rfl,
   get_close_count toyDecode _ (lit "/Routes") { a := 5 }
      (some (response 500 (lit "oops"))) none
      (doRequest_of_toHTTP _ _ _ _ rfl (sampleRequest_built _)) rfl,
   get_close_count toyDecode (sampleClient (failingWith (response 302 []))) (lit "/Routes")
      { a := 5 }
      (some { StatusCode := 302, Body := { data := [], readErr := none, closes := 1 } })
      (some (.other 7))
      (doRequest_of_toHTTP _ (failingWith (response 302 [])) _ _ rfl (sampleRequest_built _))
      rfl⟩

/-- C6, the run that breaks it. The client refuses a redirect: `Do` returns the 302
response together with an error, as documented with the body closed already. `get`
closes it again and returns the error: the body has been closed twice. -/
theorem get_closes_twice :
    net.http.asDocumented ((failingWith (response 302 [])).Do sampleRequest) = true
      ∧ (sampleClient (failingWith (response 302 []))).doRequest
          ((sampleClient (failingWith (response 302 []))).newRequest (lit "GET") (lit "/Routes"))
          = .ok (some { StatusCode := 302, Body := { data := [], readErr := none, closes := 1 } },
                 some (.other 7))
      ∧ (sampleClient (failingWith (response 302 []))).get toyDecode (lit "/Routes")
          ({ a := 5 } : Target)
          = .ok { err := some (.other 7), out := { a := 5 }, trace := [.close] }
      ∧ closesInAll
          (some { StatusCode := 302, Body := { data := [], readErr := none, closes := 1 } })
          ({ err := some (.other 7), out := { a := 5 }, trace := [.close] } : GetResult Target)
          = 2 :=
  ⟨rfl, rfl, rfl, rfl⟩

end nextrip

/-! ## Theorems about `net/url`: what `escape` writes, `Parse` reads back -/

namespace net.url

set_option maxRecDepth 100000 in
theorem escapeByte_path_plain : ∀ c : Byte, (escapeByte c .encodePath).all isPlain = true := by
  decide!

set_option maxRecDepth 100000 in
theorem escapeByte_query_plain :
    ∀ c : Byte, (escapeByte c .encodeQueryComponent).all isPlain = true := by
  decide!

set_option maxRecDepth 100000 in
theorem hex_roundtrip : ∀ c : Byte, ishex (upperhex (c >>> 4)) = true
    ∧ ishex (upperhex (c &&& 15)) = true
    ∧ (unhex (upperhex (c >>> 4)) <<< 4 ||| unhex (upperhex (c &&& 15))) = c := by
  decide!

set_option maxRecDepth 100000 in
theorem not_shouldEscape_path : ∀ c : Byte, shouldEscape c .encodePath = false → c ≠ b '%' := by
  decide!

set_option maxRecDepth 100000 in
theorem escapeByte_path_head :
    ∀ c : Byte, c ≠ b '/' → (escapeByte c .encodePath).head? ≠ some (b '/') := by
  decide!

theorem escape_path_plain (s : GoString) : (escape s .encodePath).all isPlain = true := by
  induction s with
  | nil => rfl
  | cons c rest ih => simp only [escape, List.all_append, escapeByte_path_plain c, ih, Bool.and_self]

theorem escape_query_plain (s : GoString) : (QueryEscape s).all isPlain = true := by
  unfold QueryEscape
  induction s with
  | nil => rfl
  | cons c rest ih => simp only [escape, List.all_append, escapeByte_query_plain c, ih, Bool.and_self]

theorem encodePairs_plain (k : GoString) (hk : k.all isPlain = true) (vs : List GoString) :
    ∀ buf : GoString, buf.all isPlain = true → (encodePairs k vs buf).all isPlain = true := by
  induction vs with
  | nil => intro buf h; exact h
  | cons v vs ih =>
    intro buf h
    apply ih
    have h1 : isPlain (b '&') = true := by decide
    have h2 : isPlain (b '=') = true := by decide
    split <;> simp [List.all_append, h, hk, escape_query_plain, h1, h2]

theorem encodeKeys_plain (v : Values) (ks : List GoString) :
    ∀ buf : GoString, buf.all isPlain = true → (encodeKeys v ks buf).all isPlain = true := by
  induction ks with
  | nil => intro buf h; exact h
  | cons k ks ih =>
    intro buf h
    exact ih _ (encodePairs_plain _ (escape_query_plain k) _ _ h)

theorem Encode_plain (v : Values) : (Values.Encode v).all isPlain = true :=
  encodeKeys_plain v _ [] rfl

theorem unescapeCheck_escapeByte (c : Byte) (rest : GoString) :
    unescapeCheck (escapeByte c .encodePath ++ rest) .encodePath
      = unescapeCheck rest .encodePath := by
  unfold escapeByte
  by_cases h : shouldEscape c .encodePath = true
  · obtain ⟨h1, h2, -⟩ := hex_roundtrip c
    simp [h, unescapeCheck, h1, h2]
  · have hc := not_shouldEscape_path c (by simpa using h)
    simp only [h, Bool.false_eq_true, if_false, List.singleton_append, and_false]
    rw [unescapeCheck.eq_def]
    simp [hc]

theorem unescapeBuild_escapeByte (c : Byte) (rest : GoString) :
    unescapeBuild (escapeByte c .encodePath ++ rest) .encodePath
      = c :: unescapeBuild rest .encodePath := by
  unfold escapeByte
  by_cases h : shouldEscape c .encodePath = true
  · obtain ⟨-, -, h3⟩ := hex_roundtrip c
    simp [h, unescapeBuild, h3]
  · have hc := not_shouldEscape_path c (by simpa using h)
    simp only [h, Bool.false_eq_true, if_false, List.singleton_append, and_false]
    rw [unescapeBuild.eq_def]
    simp [hc]

theorem unescapeCheck_escape_path (p : GoString) :
    unescapeCheck (escape p .encodePath) .encodePath = none := by
  induction p with
  | nil => rfl
  | cons c rest ih => rw [escape, unescapeCheck_escapeByte, ih]

theorem unescapeBuild_escape_path (p : GoString) :
    unescapeBuild (escape p .encodePath) .encodePath = p := by
  induction p with
  | nil => rfl
  | cons c rest ih => rw [escape, unescapeBuild_escapeByte, ih]

theorem unescape_escape_path (p : GoString) :
    unescape (escape p .encodePath) .encodePath = .ok p := by
  simp [unescape, unescapeCheck_escape_path, unescapeBuild_escape_path]

theorem isPlain_iff (x : Byte) :
    isPlain x = true ↔ x ≠ b '?' ∧ x ≠ b '#' ∧ ¬ (x < b ' ' ∨ x = 127) := by
  simp [isPlain, and_assoc]

theorem plain_not_mem (s : GoString) (h : s.all isPlain = true) :
    b '?' ∉ s ∧ b '#' ∉ s := by
  rw [List.all_eq_true] at h
  exact ⟨fun hm => ((isPlain_iff _).1 (h _ hm)).1 rfl, fun hm => ((isPlain_iff _).1 (h _ hm)).2.1 rfl⟩

theorem plain_noCTL (s : GoString) (h : s.all isPlain = true) :
    stringContainsCTLByte s = false := by
  rw [List.all_eq_true] at h
  unfold stringContainsCTLByte
  rw [List.any_eq_false]
  intro x hx
  have := ((isPlain_iff _).1 (h x hx)).2.2
  simpa using this

theorem HasSuffix_false (a t : GoString) (c : Byte) (ht : t ≠ []) (h : c ∉ t) :
    strings.HasSuffix (a ++ t) [c] = false := by
  unfold strings.HasSuffix
  rw [Bool.eq_false_iff]
  intro hs
  rw [List.isSuffixOf_iff_suffix] at hs
  obtain ⟨u, hu⟩ := hs
  have h1 : (a ++ t).getLast? = some c := by rw [← hu]; simp
  rw [List.getLast?_append] at h1
  cases hq : t.getLast? with
  | none => simp at hq; exact ht hq
  | some x =>
    rw [hq] at h1
    simp at h1
    subst h1
    obtain ⟨ys, hys⟩ := List.getLast?_eq_some_iff.1 hq
    exact h (by rw [hys]; simp)

theorem Cut_not_mem (s : GoString) (sep : Byte) (h : sep ∉ s) :
    strings.Cut s sep = (s, [], false) := by
  induction s with
  | nil => rfl
  | cons c rest ih =>
    have hc : c ≠ sep := fun e => h (by simp [e])
    have hr : sep ∉ rest := fun e => h (by simp [e])
    simp [strings.Cut, hc, ih hr]

theorem Cut_append (s t : GoString) (sep : Byte) (h : sep ∉ s) :
    strings.Cut (s ++ sep :: t) sep = (s, t, true) := by
  induction s with
  | nil => simp [strings.Cut]
  | cons c rest ih =>
    have hc : c ≠ sep := fun e => h (by simp [e])
    have hr : sep ∉ rest := fun e => h (by simp [e])
    simp [strings.Cut, hc, ih hr]

/-- The text `RequestURI` writes for an escaped path and a query. -/
theorem uri_plain (e q : GoString) (he : e.all isPlain = true) (hq : q.all isPlain = true) :
    (strings.Cut (e ++ (if q = [] then [] else b '?' :: q)) (b '#')).1
        = e ++ (if q = [] then [] else b '?' :: q)
      ∧ (strings.Cut (e ++ (if q = [] then [] else b '?' :: q)) (b '#')).2.1 = []
      ∧ stringContainsCTLByte (e ++ (if q = [] then [] else b '?' :: q)) = false := by
  have h1 : b '#' ∉ e ++ (if q = [] then [] else b '?' :: q) := by
    have := (plain_not_mem e he).2
    have := (plain_not_mem q hq).2
    split <;> simp_all
    decide
  have h2 : stringContainsCTLByte (e ++ (if q = [] then [] else b '?' :: q)) = false := by
    have h3 := plain_noCTL e he
    have h4 := plain_noCTL q hq
    unfold stringContainsCTLByte at *
    split
    · simpa using h3
    · rw [List.any_append, h3, List.any_cons, h4]
      decide
  rw [Cut_not_mem _ _ h1]
  exact ⟨rfl, rfl, h2⟩

theorem query_split (e q : GoString) (he : e.all isPlain = true) (hq : q.all isPlain = true)
    (hne : e ≠ []) :
    ¬ (strings.HasSuffix (e ++ (if q = [] then [] else b '?' :: q)) (lit "?") = true
        ∧ strings.Count (e ++ (if q = [] then [] else b '?' :: q)) (b '?') = 1)
      ∧ (strings.Cut (e ++ (if q = [] then [] else b '?' :: q)) (b '?')).1 = e
      ∧ (strings.Cut (e ++ (if q = [] then [] else b '?' :: q)) (b '?')).2.1 = q := by
  have h1 := (plain_not_mem e he).1
  have h2 := (plain_not_mem q hq).1
  have hl : lit "?" = [b '?'] := rfl
  by_cases hqe : q = []
  · subst hqe
    simp only [if_true, List.append_nil]
    rw [Cut_not_mem _ _ h1]
    refine ⟨?_, rfl, rfl⟩
    rw [hl]
    have := HasSuffix_false [] e (b '?') hne h1
    simp at this
    simp [this]
  · simp only [hqe, if_false]
    rw [Cut_append _ _ _ h1]
    refine ⟨?_, rfl, rfl⟩
    rw [hl]
    have := HasSuffix_false (e ++ [b '?']) q (b '?') hqe h2
    simp at this
    simp [this]

theorem setPath_escape (u : URL) (p : GoString) :
    URL.setPath u (escape p .encodePath) = .ok { u with Path := p, RawPath := [] } := by
  simp [URL.setPath, unescape_escape_path]

theorem escape_rooted (p : GoString) (h1 : strings.HasPrefix p (lit "/") = true)
    (h2 : strings.HasPrefix p (lit "//") = false) :
    ∃ e, escape p .encodePath = b '/' :: e ∧ e.head? ≠ some (b '/') := by
  have hl1 : lit "/" = [b '/'] := rfl
  have hl2 : lit "//" = [b '/', b '/'] := rfl
  rw [strings.HasPrefix, hl1] at h1
  rw [strings.HasPrefix, hl2] at h2
  cases p with
  | nil => simp at h1
  | cons c rest =>
    simp only [List.isPrefixOf, Bool.and_true, beq_iff_eq] at h1
    subst h1
    refine ⟨escape rest .encodePath, rfl, ?_⟩
    cases rest with
    | nil => simp [escape]
    | cons d rest2 =>
      have hd : d ≠ b '/' := by
        intro e
        subst e
        simp [List.isPrefixOf] at h2
      have := escapeByte_path_head d hd
      rw [escape]
      cases he : escapeByte d .encodePath with
      | nil => simp [escapeByte] at he; split at he <;> simp at he
      | cons x xs => rw [he] at this; simpa using this

theorem getScheme_rooted (s : GoString) : getScheme (b '/' :: s) = .ok ([], b '/' :: s) := rfl

theorem parseRest_rooted (u : URL) (e : GoString) (hu : u.Scheme = [])
    (he : e.head? ≠ some (b '/')) :
    parseRest u (b '/' :: e) false = URL.setPath u (b '/' :: e) := by
  have hl1 : lit "/" = [b '/'] := rfl
  have hl2 : lit "//" = [b '/', b '/'] := rfl
  have h1 : strings.HasPrefix (b '/' :: e) (lit "/") = true := by
    simp [strings.HasPrefix, hl1, List.isPrefixOf]
  have h2 : strings.HasPrefix (b '/' :: e) (lit "//") = false := by
    rw [strings.HasPrefix, hl2]
    cases e with
    | nil => simp [List.isPrefixOf]
    | cons x xs =>
      have : x ≠ b '/' := by simpa using he
      simp [List.isPrefixOf, Ne.symm this]
  simp [parseRest, h1, h2, hu]

theorem Parse_rooted (p q : GoString) (h1 : strings.HasPrefix p (lit "/") = true)
    (h2 : strings.HasPrefix p (lit "//") = false) (hq : q.all isPlain = true) :
    Parse (escape p .encodePath ++ (if q = [] then [] else b '?' :: q))
      = .ok { Path := p, RawQuery := q } := by
  obtain ⟨e, he, hh⟩ := escape_rooted p h1 h2
  have hpl := escape_path_plain p
  have hne : escape p .encodePath ≠ [] := by rw [he]; simp
  obtain ⟨c1, c2, c3⟩ := uri_plain _ q hpl hq
  obtain ⟨s1, s2, s3⟩ := query_split _ q hpl hq hne
  have hstar : escape p .encodePath ++ (if q = [] then [] else b '?' :: q) ≠ lit "*" := by
    rw [he]
    have : lit "*" = [b '*'] := rfl
    rw [this]
    simp
    intro h
    exact absurd h (by decide)
  have hgs : getScheme (escape p .encodePath ++ (if q = [] then [] else b '?' :: q))
      = .ok ([], escape p .encodePath ++ (if q = [] then [] else b '?' :: q)) := by
    rw [he]; rfl
  have hparse : parse (escape p .encodePath ++ (if q = [] then [] else b '?' :: q)) false
      = .ok { Path := p, RawQuery := q } := by
    unfold parse
    rw [c3]
    simp only [Bool.false_eq_true, if_false, and_false, hstar, hgs, s1, s2, s3]
    rw [he, parseRest_rooted _ _ rfl hh, ← he, setPath_escape]
    rfl
  unfold Parse
  rw [c1, c2, hparse]
  simp

set_option maxRecDepth 100000 in
theorem schemeByte_ne_question : ∀ c : Byte,
    (((b 'a' ≤ c ∧ c ≤ b 'z') ∨ (b 'A' ≤ c ∧ c ≤ b 'Z'))
      ∨ ((b '0' ≤ c ∧ c ≤ b '9') ∨ c = b '+' ∨ c = b '-' ∨ c = b '.')) → c ≠ b '?' := by
  decide!

theorem getSchemeFrom_ok (raw : GoString) :
    ∀ (s seen sch rest : GoString), getSchemeFrom raw seen s = .ok (sch, rest) →
      (sch = [] ∧ rest = raw) ∨ (∃ a, s = a ++ b ':' :: rest ∧ b '?' ∉ a) := by
  intro s
  induction s with
  | nil =>
    intro seen sch rest h
    simp only [getSchemeFrom, Except.ok.injEq, Prod.mk.injEq] at h
    exact Or.inl ⟨h.1.symm, h.2.symm⟩
  | cons c s ih =>
    intro seen sch rest h
    rw [getSchemeFrom] at h
    split at h
    · rename_i hc
      rcases ih _ _ _ h with h1 | ⟨a, ha, hq⟩
      · exact Or.inl h1
      · refine Or.inr ⟨c :: a, by rw [ha]; rfl, ?_⟩
        have := schemeByte_ne_question c (Or.inl hc)
        simp [hq, Ne.symm this]
    · split at h
      · rename_i hc
        split at h
        · simp only [Except.ok.injEq, Prod.mk.injEq] at h
          exact Or.inl ⟨h.1.symm, h.2.symm⟩
        · rcases ih _ _ _ h with h1 | ⟨a, ha, hq⟩
          · exact Or.inl h1
          · refine Or.inr ⟨c :: a, by rw [ha]; rfl, ?_⟩
            have := schemeByte_ne_question c (Or.inr hc)
            simp [hq, Ne.symm this]
      · split at h
        · rename_i hc
          split at h
          · simp at h
          · simp only [Except.ok.injEq, Prod.mk.injEq] at h
            exact Or.inr ⟨[], by rw [hc, h.2]; rfl, by simp⟩
        · simp only [Except.ok.injEq, Prod.mk.injEq] at h
          exact Or.inl ⟨h.1.symm, h.2.symm⟩

theorem uri_after_scheme (q : GoString) :
    ∀ (a e rest : GoString), e.all isPlain = true → b '?' ∉ a →
      e ++ (if q = [] then [] else b '?' :: q) = a ++ b ':' :: rest →
      ∃ e2, rest = e2 ++ (if q = [] then [] else b '?' :: q) ∧ e2.all isPlain = true := by
  intro a
  induction a with
  | nil =>
    intro e rest he _ h
    cases e with
    | nil =>
      by_cases hq : q = []
      · simp [hq] at h
      · simp [hq] at h
        exact absurd h.1 (by decide)
    | cons x e1 =>
      simp only [List.cons_append, List.nil_append, List.cons.injEq] at h
      simp only [List.all_cons, Bool.and_eq_true] at he
      exact ⟨e1, h.2.symm, he.2⟩
  | cons y a1 ih =>
    intro e rest he ha h
    cases e with
    | nil =>
      by_cases hq : q = []
      · simp [hq] at h
      · simp [hq] at h
        exact absurd h.1.symm (fun e => ha (by simp [e]))
    | cons x e1 =>
      simp only [List.cons_append, List.cons.injEq] at h
      simp only [List.all_cons, Bool.and_eq_true] at he
      exact ih e1 rest he.2 (fun hm => ha (by simp [hm])) h.2

theorem query_split_any (e q : GoString) (he : e.all isPlain = true)
    (hq : q.all isPlain = true) :
    ¬ (strings.HasSuffix (e ++ (if q = [] then [] else b '?' :: q)) (lit "?") = true
        ∧ strings.Count (e ++ (if q = [] then [] else b '?' :: q)) (b '?') = 1)
      ∧ (strings.Cut (e ++ (if q = [] then [] else b '?' :: q)) (b '?')).1 = e
      ∧ (strings.Cut (e ++ (if q = [] then [] else b '?' :: q)) (b '?')).2.1 = q := by
  by_cases hne : e = []
  · subst hne
    have h2 := (plain_not_mem q hq).1
    have hl : lit "?" = [b '?'] := rfl
    by_cases hqe : q = []
    · subst hqe
      refine ⟨?_, rfl, rfl⟩
      rw [hl]
      simp [strings.HasSuffix, List.isSuffixOf, List.isPrefixOf]
    · simp only [hqe, if_false, List.nil_append]
      refine ⟨?_, by simp [strings.Cut], by simp [strings.Cut]⟩
      have := HasSuffix_false [b '?'] q (b '?') hqe h2
      simp at this
      rw [hl]
      simp [this]
  · exact query_split e q he hq hne

theorem setPath_RawQuery (u v : URL) (p : GoString) (h : URL.setPath u p = .ok v) :
    v.RawQuery = u.RawQuery := by
  unfold URL.setPath at h
  split at h
  · simp at h
  · simp only [Except.ok.injEq] at h
    rw [← h]

theorem parseRest_RawQuery (u v : URL) (rest : GoString) (via : Bool)
    (h : parseRest u rest via = .ok v) : v.RawQuery = u.RawQuery := by
  unfold parseRest at h
  split at h
  · simp only [Except.ok.injEq] at h
    rw [← h]
  · split at h
    · simp at h
    · split at h
      · simp at h
      · split at h
        · split at h
          · simp at h
          · have := setPath_RawQuery _ _ _ h
            exact this
        · split at h
          · have := setPath_RawQuery _ _ _ h
            exact this
          · exact setPath_RawQuery _ _ _ h

theorem Parse_RawQuery (e q : GoString) (he : e.all isPlain = true)
    (hq : q.all isPlain = true) (hne : e ≠ []) (u : URL)
    (h : Parse (e ++ (if q = [] then [] else b '?' :: q)) = .ok u) : u.RawQuery = q := by
  obtain ⟨c1, c2, c3⟩ := uri_plain e q he hq
  have hsplit := fun e2 he2 => query_split_any e2 q he2 hq
  have hafter := uri_after_scheme q
  have hstarq : e ++ (if q = [] then [] else b '?' :: q) = lit "*" → q = [] := by
    intro hstar
    have hl : lit "*" = [b '*'] := rfl
    rw [hl] at hstar
    cases e with
    | nil => exact absurd rfl hne
    | cons x e1 =>
      by_cases hqe : q = []
      · exact hqe
      · simp [hqe] at hstar
  generalize hX : e ++ (if q = [] then [] else b '?' :: q) = X at *
  unfold Parse at h
  rw [c1, c2] at h
  cases hp : parse X false with
  | error err => rw [hp] at h; simp at h
  | ok v =>
    rw [hp] at h
    simp only [if_true, Except.ok.injEq] at h
    subst h
    unfold parse at hp
    rw [c3] at hp
    simp only [Bool.false_eq_true, if_false, and_false] at hp
    by_cases hstar : X = lit "*"
    · rw [if_pos hstar] at hp
      simp only [Except.ok.injEq] at hp
      rw [← hp]
      exact (hstarq hstar).symm
    · rw [if_neg hstar] at hp
      cases hgs : getScheme X with
      | error err => rw [hgs] at hp; simp at hp
      | ok sr =>
        obtain ⟨sch, rest⟩ := sr
        rw [hgs] at hp
        simp only at hp
        have hrest : ∃ e2, rest = e2 ++ (if q = [] then [] else b '?' :: q)
            ∧ e2.all isPlain = true := by
          rcases getSchemeFrom_ok _ _ _ _ _ hgs with h1 | ⟨a, ha, hqa⟩
          · exact ⟨e, h1.2.trans hX.symm, he⟩
          · exact hafter a e rest he hqa (hX.trans ha)
        obtain ⟨e2, hr, he2⟩ := hrest
        subst hr
        obtain ⟨s1, s2, s3⟩ := hsplit e2 he2
        rw [if_neg s1, s2, s3] at hp
        exact parseRest_RawQuery _ _ _ _ hp

theorem strLe_total : ∀ x y : GoString, strLe x y = true ∨ strLe y x = true := by
  intro x
  induction x with
  | nil => intro y; exact Or.inl (by simp [strLe])
  | cons a x ih =>
    intro y
    cases y with
    | nil => exact Or.inr (by simp [strLe])
    | cons c y =>
      rcases lt_trichotomy a c with h | h | h
      · exact Or.inl (by simp [strLe, h])
      · subst h
        rcases ih y with h1 | h1
        · exact Or.inl (by simp [strLe, h1])
        · exact Or.inr (by simp [strLe, h1])
      · exact Or.inr (by simp [strLe, h])

theorem strLe_trans : ∀ x y z : GoString, strLe x y = true → strLe y z = true → strLe x z = true := by
  intro x
  induction x with
  | nil => intro y z _ _; simp [strLe]
  | cons a x ih =>
    intro y z hxy hyz
    cases y with
    | nil => simp [strLe] at hxy
    | cons c y =>
      cases z with
      | nil => simp [strLe] at hyz
      | cons d z =>
        simp only [strLe] at hxy hyz ⊢
        by_cases h1 : a < c
        · by_cases h2 : c < d
          · simp [lt_trans h1 h2]
          · simp only [h2, if_false] at hyz
            by_cases h3 : d < c
            · simp [h3] at hyz
            · have : c = d := le_antisymm (not_lt.1 h3) (not_lt.1 h2)
              subst this
              simp [h1]
        · simp only [h1, if_false] at hxy
          by_cases h1b : c < a
          · simp [h1b] at hxy
          · have : a = c := le_antisymm (not_lt.1 h1b) (not_lt.1 h1)
            subst this
            simp only [h1b, if_false] at hxy
            by_cases h2 : a < d
            · simp [h2]
            · simp only [h2, if_false] at hyz ⊢
              by_cases h3 : d < a
              · simp [h3] at hyz
              · simp only [h3, if_false] at hyz ⊢
                exact ih y z hxy hyz

theorem sortedKeys_sorted (v : Values) :
    List.Sorted (fun x y => strLe x y = true) (sortedKeys v) := by
  haveI : IsTotal GoString (fun x y => strLe x y = true) := ⟨strLe_total⟩
  haveI : IsTrans GoString (fun x y => strLe x y = true) := ⟨strLe_trans⟩
  exact List.sorted_insertionSort _ _

theorem sortedKeys_mem (v : Values) (k : GoString) :
    k ∈ sortedKeys v ↔ ∃ vs, (k, vs) ∈ v := by
  unfold sortedKeys
  rw [(List.perm_insertionSort _ _).mem_iff, List.mem_dedup]
  simp

end net.url

/-! ## Theorems about `net/url`: how `Parse` reads each kind of path -/

namespace net.url

set_option maxRecDepth 100000 in
theorem schemeByte_ne_slash : ∀ c : Byte,
    (((b 'a' ≤ c ∧ c ≤ b 'z') ∨ (b 'A' ≤ c ∧ c ≤ b 'Z'))
      ∨ ((b '0' ≤ c ∧ c ≤ b '9') ∨ c = b '+' ∨ c = b '-' ∨ c = b '.')) → c ≠ b '/' := by
  decide!

/-- What `getScheme` can answer: no scheme and the whole text, or else the text holds a
`:` with neither `?` nor `/` before it; and when it answers with a scheme, the scheme is
not empty and the rest is what follows that `:`. -/
theorem getSchemeFrom_cases (raw : GoString) :
    ∀ (s seen : GoString),
      getSchemeFrom raw seen s = .ok ([], raw)
        ∨ ((∃ a rest, s = a ++ b ':' :: rest ∧ b '?' ∉ a ∧ b '/' ∉ a)
            ∧ ∀ sch rest, getSchemeFrom raw seen s = .ok (sch, rest) →
                (sch = [] ∧ rest = raw)
                  ∨ (sch ≠ [] ∧ ∃ a, s = a ++ b ':' :: rest ∧ b '?' ∉ a ∧ b '/' ∉ a)) := by
  intro s
  induction s with
  | nil => intro seen; exact Or.inl rfl
  | cons c s ih =>
    intro seen
    have step : ∀ seen2, getSchemeFrom raw seen2 s = .ok ([], raw)
        ∨ ((∃ a rest, s = a ++ b ':' :: rest ∧ b '?' ∉ a ∧ b '/' ∉ a)
            ∧ ∀ sch rest, getSchemeFrom raw seen2 s = .ok (sch, rest) →
                (sch = [] ∧ rest = raw)
                  ∨ (sch ≠ [] ∧ ∃ a, s = a ++ b ':' :: rest ∧ b '?' ∉ a ∧ b '/' ∉ a)) →
        c ≠ b '?' → c ≠ b '/' →
        getSchemeFrom raw seen2 s = .ok ([], raw)
        ∨ ((∃ a rest, c :: s = a ++ b ':' :: rest ∧ b '?' ∉ a ∧ b '/' ∉ a)
            ∧ ∀ sch rest, getSchemeFrom raw seen2 s = .ok (sch, rest) →
                (sch = [] ∧ rest = raw)
                  ∨ (sch ≠ [] ∧ ∃ a, c :: s = a ++ b ':' :: rest ∧ b '?' ∉ a ∧ b '/' ∉ a)) := by
      intro seen2 h hq hs
      rcases h with h | ⟨⟨a, rest, ha, h1, h2⟩, hall⟩
      · exact Or.inl h
      · refine Or.inr ⟨⟨c :: a, rest, by rw [ha]; rfl, by simp [h1, Ne.symm hq],
          by simp [h2, Ne.symm hs]⟩, ?_⟩
        intro sch rest2 hr
        rcases hall sch rest2 hr with h3 | ⟨h3, a2, ha2, h4, h5⟩
        · exact Or.inl h3
        · exact Or.inr ⟨h3, c :: a2, by rw [ha2]; rfl, by simp [h4, Ne.symm hq],
            by simp [h5, Ne.symm hs]⟩
    rw [getSchemeFrom]
    split
    · rename_i hc
      exact step _ (ih _) (schemeByte_ne_question c (Or.inl hc)) (schemeByte_ne_slash c (Or.inl hc))
    · split
      · rename_i hc
        split
        · exact Or.inl rfl
        · exact step _ (ih _) (schemeByte_ne_question c (Or.inr hc))
            (schemeByte_ne_slash c (Or.inr hc))
      · split
        · rename_i hc
          subst hc
          refine Or.inr ⟨⟨[], s, rfl, by simp, by simp⟩, ?_⟩
          intro sch rest hr
          split at hr
          · simp at hr
          · rename_i hseen
            simp only [Except.ok.injEq, Prod.mk.injEq] at hr
            refine Or.inr ⟨by rw [← hr.1]; exact hseen, [], by rw [hr.2]; rfl, by simp, by simp⟩
        · exact Or.inl rfl

set_option maxRecDepth 100000 in
theorem escapeByte_path_marks : ∀ c : Byte,
    (c ≠ b ':' → (escapeByte c .encodePath).contains (b ':') = false)
      ∧ (c ≠ b '/' → (escapeByte c .encodePath).contains (b '/') = false)
      ∧ (escapeByte c .encodePath).length ≠ 0
      ∧ (c = b ':' ∨ c = b '/' → escapeByte c .encodePath = [c]) := by
  decide!

theorem escape_cons_slash (p : GoString) :
    escape (b '/' :: p) .encodePath = b '/' :: escape p .encodePath := rfl

theorem escape_cons_colon (p : GoString) :
    escape (b ':' :: p) .encodePath = b ':' :: escape p .encodePath := rfl

theorem Cut_append_left (x r : GoString) (sep : Byte) (h : sep ∉ x) :
    strings.Cut (x ++ r) sep
      = (x ++ (strings.Cut r sep).1, (strings.Cut r sep).2.1, (strings.Cut r sep).2.2) := by
  induction x with
  | nil => rfl
  | cons c x ih =>
    have hc : c ≠ sep := fun e => h (by simp [e])
    have hr : sep ∉ x := fun e => h (by simp [e])
    simp [strings.Cut, hc, ih hr]

theorem not_mem_of_contains {x : GoString} {c : Byte} (h : x.contains c = false) : c ∉ x := by
  intro hm
  have : x.contains c = true := by simpa using hm
  rw [h] at this
  exact absurd this (by simp)

/-- The first segment of an escaped path is the escaped first segment, and what follows
it is the escaped rest. -/
theorem cut_escape (p : GoString) :
    (strings.Cut (escape p .encodePath) (b '/')).1
        = escape (strings.Cut p (b '/')).1 .encodePath
      ∧ List.drop (strings.Cut (escape p .encodePath) (b '/')).1.length (escape p .encodePath)
        = escape (List.drop (strings.Cut p (b '/')).1.length p) .encodePath := by
  induction p with
  | nil => exact ⟨rfl, rfl⟩
  | cons c p ih =>
    by_cases hc : c = b '/'
    · subst hc
      rw [escape_cons_slash]
      simp [strings.Cut, escape_cons_slash]
      rfl
    · have hm := not_mem_of_contains ((escapeByte_path_marks c).2.1 hc)
      rw [escape, Cut_append_left _ _ _ hm]
      simp only [strings.Cut, hc, if_false, escape, List.length_append, List.length_cons]
      refine ⟨by rw [ih.1], ?_⟩
      rw [List.drop_append_eq_append_drop]
      have : (escapeByte c .encodePath).length + (strings.Cut (escape p .encodePath) (b '/')).1.length
          - (escapeByte c .encodePath).length
          = (strings.Cut (escape p .encodePath) (b '/')).1.length := by omega
      rw [this, ih.2, List.drop_eq_nil_of_le (by omega)]
      simp

theorem contains_colon_escape (p : GoString) :
    (escape p .encodePath).contains (b ':') = p.contains (b ':') := by
  induction p with
  | nil => rfl
  | cons c p ih =>
    by_cases hc : c = b ':'
    · subst hc
      rw [escape_cons_colon]
      simp
    · have := (escapeByte_path_marks c).1 hc
      have h2 : ((c :: p).contains (b ':')) = p.contains (b ':') := by
        simp [List.contains_cons, Ne.symm hc]
      rw [h2, ← ih, escape]
      simp only [List.contains_eq_any_beq, List.any_append] at this ⊢
      rw [this]
      simp

/-- An escaped path that starts with `/` is the escape of a path that starts with `/`. -/
theorem escape_head_slash (p e : GoString) (h : escape p .encodePath = b '/' :: e) :
    ∃ p2, p = b '/' :: p2 ∧ escape p2 .encodePath = e := by
  cases p with
  | nil => simp [escape] at h
  | cons c p2 =>
    by_cases hc : c = b '/'
    · subst hc
      rw [escape_cons_slash] at h
      simp only [List.cons.injEq, true_and] at h
      exact ⟨p2, rfl, h⟩
    · exfalso
      have hh := escapeByte_path_head c hc
      rw [escape] at h
      cases he : escapeByte c .encodePath with
      | nil => exact (escapeByte_path_marks c).2.2.1 (by rw [he]; rfl)
      | cons x xs =>
        rw [he] at h hh
        simp only [List.cons_append, List.cons.injEq] at h
        exact hh (by simp [h.1])

/-- An escaped path with a `:` in it is the escape of a path with a `:` at that place. -/
theorem escape_split_colon (p : GoString) :
    ∀ a r : GoString, escape p .encodePath = a ++ b ':' :: r →
      ∃ p1 p2, p = p1 ++ b ':' :: p2 ∧ escape p2 .encodePath = r := by
  induction p with
  | nil => intro a r h; simp [escape] at h
  | cons c p ih =>
    intro a r h
    by_cases hc : c = b ':'
    · subst hc
      rw [escape_cons_colon] at h
      cases a with
      | nil =>
        simp only [List.nil_append, List.cons.injEq, true_and] at h
        exact ⟨[], p, rfl, h⟩
      | cons y a2 =>
        simp only [List.cons_append, List.cons.injEq] at h
        obtain ⟨p1, p2, hp, he⟩ := ih a2 r h.2
        exact ⟨b ':' :: p1, p2, by rw [hp]; rfl, he⟩
    · have hm := not_mem_of_contains ((escapeByte_path_marks c).1 hc)
      rw [escape] at h
      rcases List.append_eq_append_iff.1 h with ⟨a2, ha, hr⟩ | ⟨c2, hx, hr⟩
      · obtain ⟨p1, p2, hp, he⟩ := ih a2 r hr
        exact ⟨c :: p1, p2, by rw [hp]; rfl, he⟩
      · cases c2 with
        | nil =>
          simp only [List.nil_append] at hr
          obtain ⟨p1, p2, hp, he⟩ := ih [] r (by simpa using hr.symm)
          exact ⟨c :: p1, p2, by rw [hp]; rfl, he⟩
        | cons y c3 =>
          exfalso
          simp only [List.cons_append, List.cons.injEq] at hr
          exact hm (by rw [hx]; simp [hr.1])

theorem Parse_iff_parse (e q : GoString) (he : e.all isPlain = true)
    (hq : q.all isPlain = true) (u : URL) :
    Parse (e ++ (if q = [] then [] else b '?' :: q)) = .ok u
      ↔ parse (e ++ (if q = [] then [] else b '?' :: q)) false = .ok u := by
  obtain ⟨c1, c2, -⟩ := uri_plain e q he hq
  unfold Parse
  rw [c1, c2]
  cases parse (e ++ (if q = [] then [] else b '?' :: q)) false <;> simp

theorem parse_noscheme (e q : GoString) (he : e.all isPlain = true)
    (hq : q.all isPlain = true)
    (hstar : e ++ (if q = [] then [] else b '?' :: q) ≠ lit "*")
    (hgs : getScheme (e ++ (if q = [] then [] else b '?' :: q))
      = .ok ([], e ++ (if q = [] then [] else b '?' :: q))) :
    parse (e ++ (if q = [] then [] else b '?' :: q)) false
      = parseRest { RawQuery := q } e false := by
  obtain ⟨-, -, c3⟩ := uri_plain e q he hq
  obtain ⟨s1, s2, s3⟩ := query_split_any e q he hq
  unfold parse
  rw [c3]
  simp only [Bool.false_eq_true, if_false, and_false, hstar, hgs, s1, s2, s3]
  rfl

theorem uri_after_colon (q : GoString) :
    ∀ (a e rest : GoString), e.all isPlain = true → b '?' ∉ a →
      e ++ (if q = [] then [] else b '?' :: q) = a ++ b ':' :: rest →
      ∃ e2, e = a ++ b ':' :: e2 ∧ rest = e2 ++ (if q = [] then [] else b '?' :: q)
        ∧ e2.all isPlain = true := by
  intro a
  induction a with
  | nil =>
    intro e rest he _ h
    cases e with
    | nil =>
      by_cases hq : q = []
      · simp [hq] at h
      · simp [hq] at h
        exact absurd h.1 (by decide)
    | cons x e1 =>
      simp only [List.cons_append, List.nil_append, List.cons.injEq] at h
      simp only [List.all_cons, Bool.and_eq_true] at he
      exact ⟨e1, by rw [h.1]; rfl, h.2.symm, he.2⟩
  | cons y a1 ih =>
    intro e rest he ha h
    cases e with
    | nil =>
      by_cases hq : q = []
      · simp [hq] at h
      · simp [hq] at h
        exact absurd h.1.symm (fun e => ha (by simp [e]))
    | cons x e1 =>
      simp only [List.cons_append, List.cons.injEq] at h
      simp only [List.all_cons, Bool.and_eq_true] at he
      obtain ⟨e2, h1, h2, h3⟩ := ih e1 rest he.2 (fun hm => ha (by simp [hm])) h.2
      exact ⟨e2, by rw [h.1, h1]; rfl, h2, h3⟩

theorem parse_scheme (e q sch rest a : GoString) (he : e.all isPlain = true)
    (hq : q.all isPlain = true)
    (hgs : getScheme (e ++ (if q = [] then [] else b '?' :: q)) = .ok (sch, rest))
    (hX : e ++ (if q = [] then [] else b '?' :: q) = a ++ b ':' :: rest)
    (ha : b '?' ∉ a) :
    ∃ e2, e = a ++ b ':' :: e2
      ∧ parse (e ++ (if q = [] then [] else b '?' :: q)) false
        = parseRest { Scheme := strings.ToLower sch, RawQuery := q } e2 false := by
  obtain ⟨-, -, c3⟩ := uri_plain e q he hq
  obtain ⟨e2, h1, h2, h3⟩ := uri_after_colon q a e rest he ha hX
  obtain ⟨s1, s2, s3⟩ := query_split_any e2 q h3 hq
  refine ⟨e2, h1, ?_⟩
  have hstar : e ++ (if q = [] then [] else b '?' :: q) ≠ lit "*" := by
    rw [hX]
    have hl : lit "*" = [b '*'] := rfl
    rw [hl]
    cases a with
    | nil => simp; intro h; exact absurd h (by decide)
    | cons y a2 => simp
  unfold parse
  rw [c3]
  simp only [Bool.false_eq_true, if_false, and_false, hstar, hgs]
  rw [h2, if_neg s1, s2, s3]

theorem HasPrefix_cons (c : Byte) (s p : GoString) :
    strings.HasPrefix (c :: s) (c :: p) = strings.HasPrefix s p := by
  simp [strings.HasPrefix, List.isPrefixOf]

theorem HasPrefix_slash (s : GoString) :
    strings.HasPrefix s (lit "/") = true ↔ ∃ t, s = b '/' :: t := by
  have hl : lit "/" = [b '/'] := rfl
  rw [hl, strings.HasPrefix]
  cases s with
  | nil => simp
  | cons c t =>
    simp only [List.isPrefixOf, Bool.and_true, beq_iff_eq, List.cons.injEq, exists_eq_right']
    exact eq_comm

theorem HasPrefix_slash2 (s : GoString) :
    strings.HasPrefix s (lit "//") = true ↔ ∃ t, s = b '/' :: b '/' :: t := by
  have hl : lit "//" = [b '/', b '/'] := rfl
  rw [hl, strings.HasPrefix]
  cases s with
  | nil => simp
  | cons c t =>
    cases t with
    | nil => simp [List.isPrefixOf]
    | cons d t2 =>
      simp only [List.isPrefixOf, Bool.and_true, Bool.and_eq_true, beq_iff_eq]
      constructor
      · rintro ⟨h1, h2⟩
        exact ⟨t2, by rw [← h1, ← h2]⟩
      · rintro ⟨t, ht⟩
        simp only [List.cons.injEq] at ht
        exact ⟨ht.1.symm, ht.2.1.symm⟩

theorem HasPrefix_slash3 (s : GoString) :
    strings.HasPrefix s (lit "///") = true ↔ ∃ t, s = b '/' :: b '/' :: b '/' :: t := by
  have hl : lit "///" = [b '/', b '/', b '/'] := rfl
  rw [hl, strings.HasPrefix]
  cases s with
  | nil => simp
  | cons c t =>
    cases t with
    | nil => simp [List.isPrefixOf]
    | cons d t2 =>
      cases t2 with
      | nil => simp [List.isPrefixOf]
      | cons f t3 =>
        simp only [List.isPrefixOf, Bool.and_true, Bool.and_eq_true, beq_iff_eq]
        constructor
        · rintro ⟨h1, h2, h3⟩
          exact ⟨t3, by rw [← h1, ← h2, ← h3]⟩
        · rintro ⟨t, ht⟩
          simp only [List.cons.injEq] at ht
          exact ⟨ht.1.symm, ht.2.1.symm, ht.2.2.1.symm⟩

theorem setPath_Path (u v : URL) (s : GoString) (h : URL.setPath u s = .ok v) :
    v.Path = unescapeBuild s .encodePath := by
  unfold URL.setPath unescape at h
  cases hc : unescapeCheck s .encodePath with
  | some e => rw [hc] at h; simp at h
  | none =>
    rw [hc] at h
    simp only [Except.ok.injEq] at h
    rw [← h]

/-- With no scheme, a text that is not rooted and has no `:` in its first segment is read
as a path. -/
theorem parseRest_relative (u : URL) (e : GoString) (hu : u.Scheme = [])
    (h1 : strings.HasPrefix e (lit "/") = false)
    (hc : strings.Contains (strings.Cut e (b '/')).1 (b ':') = false) :
    parseRest u e false = URL.setPath u e := by
  have h2 : strings.HasPrefix e (lit "//") = false := by
    rw [Bool.eq_false_iff]
    intro h
    obtain ⟨t, ht⟩ := (HasPrefix_slash2 e).1 h
    have := (HasPrefix_slash e).2 ⟨_, ht⟩
    rw [h1] at this
    exact absurd this (by simp)
  simp [parseRest, h1, h2, hu, hc]

/-- With no scheme, a text that is not rooted and has a `:` in its first segment is
refused. -/
theorem parseRest_relative_colon (u : URL) (e : GoString) (hu : u.Scheme = [])
    (h1 : strings.HasPrefix e (lit "/") = false)
    (hc : strings.Contains (strings.Cut e (b '/')).1 (b ':') = true) :
    ∃ err, parseRest u e false = .error err := by
  simp [parseRest, h1, hu, hc]

/-- With no scheme, a text that starts with `///` is read as a path. -/
theorem parseRest_slashes (u : URL) (e : GoString) (hu : u.Scheme = [])
    (h3 : strings.HasPrefix e (lit "///") = true) :
    parseRest u e false = URL.setPath u e := by
  obtain ⟨t, ht⟩ := (HasPrefix_slash3 e).1 h3
  have h1 : strings.HasPrefix e (lit "/") = true := (HasPrefix_slash e).2 ⟨_, ht⟩
  simp [parseRest, h1, h3, hu]

/-- A text that starts with `//` (and, with no scheme, not with `///`) is read as an
authority followed by a path: the path is what stands from the next `/` on. -/
theorem parseRest_authority (u v : URL) (e : GoString)
    (h2 : strings.HasPrefix e (lit "//") = true)
    (h3 : u.Scheme ≠ [] ∨ strings.HasPrefix e (lit "///") = false)
    (h : parseRest u e false = .ok v) :
    v.Path = unescapeBuild
      ((e.drop 2).drop (strings.Cut (e.drop 2) (b '/')).1.length) .encodePath := by
  obtain ⟨t, ht⟩ := (HasPrefix_slash2 e).1 h2
  have h1 : strings.HasPrefix e (lit "/") = true := (HasPrefix_slash e).2 ⟨_, ht⟩
  have hcond : (u.Scheme ≠ [] ∨ (¬ (false = true) ∧ ¬ strings.HasPrefix e (lit "///") = true))
      ∧ strings.HasPrefix e (lit "//") = true := by
    refine ⟨?_, h2⟩
    rcases h3 with h3 | h3
    · exact Or.inl h3
    · exact Or.inr ⟨by simp, by simp [h3]⟩
  unfold parseRest at h
  rw [if_neg (by simp [h1]), if_neg (by simp), if_neg (by simp [h1]), if_pos hcond] at h
  split at h
  · simp at h
  · exact setPath_Path _ _ _ h

/-- With a scheme, the text after it is kept as opaque text when it is not rooted, and
read as a path otherwise (after an authority when it starts with `//`). -/
theorem parseRest_scheme (u v : URL) (e : GoString) (hu : u.Scheme ≠ [])
    (h : parseRest u e false = .ok v) :
    (strings.HasPrefix e (lit "/") = false ∧ v.Path = u.Path)
      ∨ (strings.HasPrefix e (lit "//") = true
          ∧ v.Path = unescapeBuild
              ((e.drop 2).drop (strings.Cut (e.drop 2) (b '/')).1.length) .encodePath)
      ∨ (strings.HasPrefix e (lit "/") = true ∧ v.Path = unescapeBuild e .encodePath) := by
  by_cases h1 : strings.HasPrefix e (lit "/") = true
  · by_cases h2 : strings.HasPrefix e (lit "//") = true
    · exact Or.inr (Or.inl ⟨h2, parseRest_authority u v e h2 (Or.inl hu) h⟩)
    · refine Or.inr (Or.inr ⟨h1, ?_⟩)
      unfold parseRest at h
      rw [if_neg (by simp [h1]), if_neg (by simp), if_neg (by simp [h1]),
        if_neg (by simp [h2]), if_pos ⟨hu, h1⟩] at h
      exact setPath_Path _ _ _ h
  · refine Or.inl ⟨by simpa using h1, ?_⟩
    unfold parseRest at h
    rw [if_pos ⟨by simp [h1], hu⟩] at h
    simp only [Except.ok.injEq] at h
    rw [← h]

set_option maxRecDepth 100000 in
theorem escapeByte_path_star :
    ∀ c : Byte, (escapeByte c .encodePath).head? ≠ some (b '*') := by
  decide!

theorem escape_ne_star (p : GoString) (t : GoString) :
    escape p .encodePath ++ t ≠ b '*' :: [] ∨ p = [] := by
  cases p with
  | nil => exact Or.inr rfl
  | cons c p2 =>
    refine Or.inl ?_
    intro h
    rw [escape] at h
    have hh := escapeByte_path_star c
    cases he : escapeByte c .encodePath with
    | nil => exact (escapeByte_path_marks c).2.2.1 (by rw [he]; rfl)
    | cons x xs =>
      rw [he] at h hh
      simp only [List.cons_append, List.cons.injEq] at h
      exact hh (by simp [h.1])

theorem escape_ne_nil (p : GoString) (h : p ≠ []) : escape p .encodePath ≠ [] := by
  cases p with
  | nil => exact absurd rfl h
  | cons c p2 =>
    rw [escape]
    intro he
    have := (escapeByte_path_marks c).2.2.1
    simp only [List.append_eq_nil] at he
    exact this (by rw [he.1]; rfl)

theorem pathText_escape (p : GoString) (hne : p ≠ []) (hs : p ≠ lit "*") :
    (if (if p = lit "*" then lit "*" else escape p .encodePath) = [] then lit "/"
        else (if p = lit "*" then lit "*" else escape p .encodePath))
      = escape p .encodePath := by
  rw [if_neg hs, if_neg (escape_ne_nil p hne)]

theorem uri_ne_star (p q : GoString) (hne : p ≠ []) :
    escape p .encodePath ++ (if q = [] then [] else b '?' :: q) ≠ lit "*" := by
  rcases escape_ne_star p (if q = [] then [] else b '?' :: q) with h | h
  · exact h
  · exact absurd h hne

/-- A path that begins with `///` comes back from `Parse` as it is. -/
theorem Parse_slashes (p q : GoString) (u : URL)
    (h3 : strings.HasPrefix p (lit "///") = true) (hq : q.all isPlain = true)
    (hu : Parse (escape p .encodePath ++ (if q = [] then [] else b '?' :: q)) = .ok u) :
    u.Path = p := by
  obtain ⟨t, ht⟩ := (HasPrefix_slash3 p).1 h3
  have hne : p ≠ [] := by rw [ht]; simp
  have he : escape p .encodePath
      = b '/' :: b '/' :: b '/' :: escape t .encodePath := by rw [ht]; rfl
  have hp := (Parse_iff_parse _ q (escape_path_plain p) hq u).1 hu
  rw [parse_noscheme _ q (escape_path_plain p) hq (uri_ne_star p q hne) (by rw [he]; rfl),
    parseRest_slashes _ _ rfl ((HasPrefix_slash3 _).2 ⟨_, he⟩), setPath_escape] at hp
  simp only [Except.ok.injEq] at hp
  rw [← hp]

/-- A path that does not begin with `/` and has no `:` in its first segment comes back
from `Parse` as it is. -/
theorem Parse_relative (p q : GoString) (u : URL)
    (h1 : strings.HasPrefix p (lit "/") = false) (hne : p ≠ [])
    (hc : strings.Contains (strings.Cut p (b '/')).1 (b ':') = false)
    (hq : q.all isPlain = true)
    (hu : Parse (escape p .encodePath ++ (if q = [] then [] else b '?' :: q)) = .ok u) :
    u.Path = p := by
  have hpl := escape_path_plain p
  have he1 : strings.HasPrefix (escape p .encodePath) (lit "/") = false := by
    rw [Bool.eq_false_iff]
    intro h
    obtain ⟨t, ht⟩ := (HasPrefix_slash _).1 h
    obtain ⟨p2, hp2, -⟩ := escape_head_slash p t ht
    have := (HasPrefix_slash p).2 ⟨_, hp2⟩
    rw [h1] at this
    exact absurd this (by simp)
  have hec : strings.Contains (strings.Cut (escape p .encodePath) (b '/')).1 (b ':') = false := by
    rw [(cut_escape p).1]
    unfold strings.Contains at hc ⊢
    rw [contains_colon_escape, hc]
  have hgs : getScheme (escape p .encodePath ++ (if q = [] then [] else b '?' :: q))
      = .ok ([], escape p .encodePath ++ (if q = [] then [] else b '?' :: q)) := by
    rcases getSchemeFrom_cases _ (escape p .encodePath ++ (if q = [] then [] else b '?' :: q)) []
      with h | ⟨⟨a, rest, ha, hq1, hs1⟩, -⟩
    · exact h
    · exfalso
      obtain ⟨e2, h2, -, -⟩ := uri_after_colon q a _ rest hpl hq1 ha
      rw [h2, Cut_append_left _ _ _ hs1] at hec
      simp [strings.Contains, strings.Cut, show b ':' ≠ b '/' by decide] at hec
  have hp := (Parse_iff_parse _ q hpl hq u).1 hu
  rw [parse_noscheme _ q hpl hq (uri_ne_star p q hne) hgs,
    parseRest_relative _ _ rfl he1 hec, setPath_escape] at hp
  simp only [Except.ok.injEq] at hp
  rw [← hp]

/-- The path `*` comes back from `Parse` as it is. -/
theorem Parse_star (q : GoString) (u : URL) (hq : q.all isPlain = true)
    (hu : Parse (lit "*" ++ (if q = [] then [] else b '?' :: q)) = .ok u) :
    u.Path = lit "*" := by
  have hpl : (lit "*").all isPlain = true := by decide
  have hp := (Parse_iff_parse _ q hpl hq u).1 hu
  by_cases hqe : q = []
  · subst hqe
    have : parse (lit "*" ++ (if ([] : GoString) = [] then [] else b '?' :: [])) false
        = .ok { Path := lit "*" } := by decide
    rw [this] at hp
    simp only [Except.ok.injEq] at hp
    rw [← hp]
  · have hstar : lit "*" ++ (if q = [] then [] else b '?' :: q) ≠ lit "*" := by
      have hl : lit "*" = [b '*'] := rfl
      rw [hl]
      simp [hqe]
    have hgs : getScheme (lit "*" ++ (if q = [] then [] else b '?' :: q))
        = .ok ([], lit "*" ++ (if q = [] then [] else b '?' :: q)) := rfl
    rw [parse_noscheme _ q hpl hq hstar hgs,
      parseRest_relative _ _ rfl (by decide) (by decide)] at hp
    rw [setPath_Path _ _ _ hp]
    decide

/-- A path that begins with `//` but not with `///` comes back from `Parse` without its
first segment: that is read as the host. -/
theorem Parse_authority (p q : GoString) (u : URL)
    (h2 : strings.HasPrefix p (lit "//") = true)
    (h3 : strings.HasPrefix p (lit "///") = false) (hq : q.all isPlain = true)
    (hu : Parse (escape p .encodePath ++ (if q = [] then [] else b '?' :: q)) = .ok u) :
    u.Path = (p.drop 2).drop (strings.Cut (p.drop 2) (b '/')).1.length := by
  obtain ⟨t, ht⟩ := (HasPrefix_slash2 p).1 h2
  have hne : p ≠ [] := by rw [ht]; simp
  have he : escape p .encodePath = b '/' :: b '/' :: escape t .encodePath := by rw [ht]; rfl
  have he3 : strings.HasPrefix (escape p .encodePath) (lit "///") = false := by
    rw [Bool.eq_false_iff]
    intro h
    obtain ⟨t2, ht2⟩ := (HasPrefix_slash3 _).1 h
    rw [he] at ht2
    simp only [List.cons.injEq, true_and] at ht2
    obtain ⟨p3, hp3, -⟩ := escape_head_slash t t2 ht2
    have := (HasPrefix_slash3 p).2 ⟨p3, by rw [ht, hp3]⟩
    rw [h3] at this
    exact absurd this (by simp)
  have hp := (Parse_iff_parse _ q (escape_path_plain p) hq u).1 hu
  rw [parse_noscheme _ q (escape_path_plain p) hq (uri_ne_star p q hne) (by rw [he]; rfl)] at hp
  have := parseRest_authority _ u _ ((HasPrefix_slash2 _).2 ⟨_, he⟩) (Or.inr he3) hp
  rw [this, he, ht]
  simp only [List.drop_succ_cons, List.drop_zero]
  rw [(cut_escape t).2, unescapeBuild_escape_path]

/-- A path that does not begin with `/` and has a `:` in its first segment does not come
back from `Parse` as it is: the text before the `:` is read as a scheme. -/
theorem Parse_relative_colon (p q : GoString) (u : URL)
    (h1 : strings.HasPrefix p (lit "/") = false)
    (hc : strings.Contains (strings.Cut p (b '/')).1 (b ':') = true)
    (hq : q.all isPlain = true)
    (hu : Parse (escape p .encodePath ++ (if q = [] then [] else b '?' :: q)) = .ok u) :
    u.Path.length < p.length := by
  have hpl := escape_path_plain p
  have hne : p ≠ [] := by
    intro h
    rw [h] at hc
    simp [strings.Cut, strings.Contains] at hc
  have he1 : strings.HasPrefix (escape p .encodePath) (lit "/") = false := by
    rw [Bool.eq_false_iff]
    intro h
    obtain ⟨t, ht⟩ := (HasPrefix_slash _).1 h
    obtain ⟨p2, hp2, -⟩ := escape_head_slash p t ht
    have := (HasPrefix_slash p).2 ⟨_, hp2⟩
    rw [h1] at this
    exact absurd this (by simp)
  have hec : strings.Contains (strings.Cut (escape p .encodePath) (b '/')).1 (b ':') = true := by
    rw [(cut_escape p).1]
    unfold strings.Contains at hc ⊢
    rw [contains_colon_escape, hc]
  have hp := (Parse_iff_parse _ q hpl hq u).1 hu
  have hnoscheme : getScheme (escape p .encodePath ++ (if q = [] then [] else b '?' :: q))
      ≠ .ok ([], escape p .encodePath ++ (if q = [] then [] else b '?' :: q)) := by
    intro hgs
    rw [parse_noscheme _ q hpl hq (uri_ne_star p q hne) hgs] at hp
    obtain ⟨err, herr⟩ := parseRest_relative_colon { RawQuery := q } _ rfl he1 hec
    rw [herr] at hp
    simp at hp
  rcases getSchemeFrom_cases _ (escape p .encodePath ++ (if q = [] then [] else b '?' :: q)) []
    with h | ⟨-, hall⟩
  · exact absurd h hnoscheme
  · cases hgs : getScheme (escape p .encodePath ++ (if q = [] then [] else b '?' :: q)) with
    | error err =>
      exfalso
      obtain ⟨-, -, c3⟩ := uri_plain _ q hpl hq
      unfold parse at hp
      rw [c3] at hp
      simp only [Bool.false_eq_true, if_false, and_false, uri_ne_star p q hne, hgs] at hp
      simp at hp
    | ok sr =>
      obtain ⟨sch, rest⟩ := sr
      rcases hall sch rest hgs with ⟨h5, h6⟩ | ⟨hsch, a, ha, hq1, -⟩
      · rw [h5, h6] at hgs
        exact absurd hgs hnoscheme
      · obtain ⟨e2, h2, hpe⟩ := parse_scheme _ q sch rest a hpl hq hgs ha hq1
        rw [hpe] at hp
        obtain ⟨p1, p2, hp12, hesc⟩ := escape_split_colon p a e2 h2
        have hlow : (({ Scheme := strings.ToLower sch, RawQuery := q } : URL)).Scheme ≠ [] := by
          simp only [strings.ToLower]
          intro h
          exact hsch (List.map_eq_nil_iff.1 h)
        rcases parseRest_scheme _ u e2 hlow hp with ⟨-, h7⟩ | ⟨h7, h8⟩ | ⟨-, h8⟩
        · rw [h7]
          simp only [List.length_nil]
          exact List.length_pos.2 hne
        · obtain ⟨t, ht⟩ := (HasPrefix_slash2 e2).1 h7
          rw [ht] at hesc
          obtain ⟨p3, hp3, hesc3⟩ := escape_head_slash p2 _ hesc
          obtain ⟨p4, hp4, hesc4⟩ := escape_head_slash p3 _ hesc3
          rw [h8, ht]
          simp only [List.drop_succ_cons, List.drop_zero]
          rw [← hesc4, (cut_escape p4).2, unescapeBuild_escape_path, hp12, hp3, hp4]
          simp only [List.length_drop, List.length_append, List.length_cons]
          omega
        · rw [h8, ← hesc, unescapeBuild_escape_path, hp12]
          simp only [List.length_append, List.length_cons]
          omega

end net.url

/-! ## Theorems about `toHTTP` -/

namespace net.url

theorem RequestURI_built (s h p q : GoString) :
    URL.RequestURI { Scheme := s, Host := h, Path := p, RawQuery := q }
      = (if (if p = lit "*" then lit "*" else escape p .encodePath) = [] then lit "/"
          else (if p = lit "*" then lit "*" else escape p .encodePath))
        ++ (if q = [] then [] else b '?' :: q) := by
  have hl : lit "?" = [b '?'] := rfl
  by_cases hq : q = []
  · simp [URL.RequestURI, URL.EscapedPath, hq]
  · simp [URL.RequestURI, URL.EscapedPath, hq, hl]

theorem pathText_plain (p : GoString) :
    ((if (if p = lit "*" then lit "*" else escape p .encodePath) = [] then lit "/"
        else (if p = lit "*" then lit "*" else escape p .encodePath)).all isPlain = true)
      ∧ (if (if p = lit "*" then lit "*" else escape p .encodePath) = [] then lit "/"
        else (if p = lit "*" then lit "*" else escape p .encodePath)) ≠ [] := by
  have h1 : (lit "/").all isPlain = true := by decide
  have h2 : (lit "*").all isPlain = true := by decide
  have h3 : lit "/" ≠ [] := by decide
  have h4 := escape_path_plain p
  constructor
  · split
    · exact h1
    · split
      · exact h2
      · exact h4
  · have h5 : lit "*" ≠ [] := by decide
    by_cases hs : p = lit "*"
    · simp only [hs, if_true, if_neg h5]
      exact h5
    · simp only [if_neg hs]
      by_cases he : escape p .encodePath = []
      · simp only [he, if_true]
        exact h3
      · simp only [if_neg he]
        exact he

theorem pathText_rooted (p : GoString) (h1 : strings.HasPrefix p (lit "/") = true) :
    (if (if p = lit "*" then lit "*" else escape p .encodePath) = [] then lit "/"
        else (if p = lit "*" then lit "*" else escape p .encodePath))
      = escape p .encodePath := by
  have hl1 : lit "/" = [b '/'] := rfl
  have hl2 : lit "*" = [b '*'] := rfl
  rw [strings.HasPrefix, hl1] at h1
  cases p with
  | nil => simp at h1
  | cons c rest =>
    simp only [List.isPrefixOf, Bool.and_true, beq_iff_eq] at h1
    subst h1
    have hne : (b '/' :: rest) ≠ lit "*" := by
      rw [hl2]; simp; intro h; exact absurd h (by decide)
    have he : escape (b '/' :: rest) .encodePath = b '/' :: escape rest .encodePath := rfl
    rw [if_neg hne, he]
    simp

end net.url

namespace nextrip

open net.url

theorem NewRequest_ok (method urlStr : GoString) (body : Option GoString)
    (req : net.http.Request) (h : net.http.NewRequest method urlStr body = .ok req) :
    ∃ u, Parse urlStr = .ok u
      ∧ req.Method = (if method = [] then lit "GET" else method)
      ∧ req.URL = { u with Host := net.http.removeEmptyPort u.Host }
      ∧ req.Header = [] ∧ req.Body = body := by
  unfold net.http.NewRequest at h
  by_cases hv : ¬ net.http.validMethod (if method = [] then lit "GET" else method) = true
  · rw [if_pos hv] at h
    simp at h
  · rw [if_neg hv] at h
    cases hp : Parse urlStr with
    | error e => rw [hp] at h; simp at h
    | ok u =>
      rw [hp] at h
      simp only [Except.ok.injEq] at h
      subst h
      exact ⟨u, rfl, rfl, rfl, rfl, rfl⟩

/-- C9, amended. For every pending request that `newRequest` built, with any parameters,
headers and body put into it, on which `toHTTP` succeeds: the produced request has the
pending request's method (`GET` when that is empty), its headers and body as they are,
its scheme and host, and as query string the encoding of its parameters, whose keys are
taken in sorted order. Its URL path is the pending request's path `BasePath ++ path`
whenever that is not empty, does not begin with `//` unless it begins with `///`, and
has no `:` in its first segment unless it begins with `/`; when it begins with `/` but
not with `//` the produced URL is exactly scheme, host, that path and that query. In
the three other cases the path is not kept: an empty path is sent as `/`; of a path
that begins with `//` but not with `///` only what stands from the next `/` on is sent;
and a path that does not begin with `/` and has a `:` in its first segment is sent as
another, shorter path. -/
theorem toHTTP_request (c : Client) (method path : GoString) (params : net.url.Values)
    (header : net.http.Header) (body : Option GoString) (req : net.http.Request)
    (h : (request.toHTTP { c.newRequest method path with
            params := params, header := header, body := body }).2 = .ok req) :
    req.Method = (if method = [] then lit "GET" else method)
      ∧ req.Header = header
      ∧ req.Body = body
      ∧ req.URL.Scheme = c.config.Scheme
      ∧ req.URL.Host = c.config.Address
      ∧ req.Host = c.config.Address
      ∧ req.URL.RawQuery = net.url.Values.Encode params
      ∧ List.Sorted (fun x y => net.url.strLe x y = true) (net.url.sortedKeys params)
      ∧ (strings.HasPrefix (c.config.BasePath ++ path) (lit "/") = true →
          strings.HasPrefix (c.config.BasePath ++ path) (lit "//") = false →
          req.URL = { Scheme := c.config.Scheme, Host := c.config.Address,
                      Path := c.config.BasePath ++ path,
                      RawQuery := net.url.Values.Encode params })
      ∧ (c.config.BasePath ++ path = [] → req.URL.Path = lit "/")
      ∧ (c.config.BasePath ++ path ≠ [] →
          (strings.HasPrefix (c.config.BasePath ++ path) (lit "//") = true →
            strings.HasPrefix (c.config.BasePath ++ path) (lit "///") = true) →
          (strings.HasPrefix (c.config.BasePath ++ path) (lit "/") = false →
            strings.Contains (strings.Cut (c.config.BasePath ++ path) (b '/')).1 (b ':')
              = false) →
          req.URL.Path = c.config.BasePath ++ path)
      ∧ (strings.HasPrefix (c.config.BasePath ++ path) (lit "//") = true →
          strings.HasPrefix (c.config.BasePath ++ path) (lit "///") = false →
          req.URL.Path
              = ((c.config.BasePath ++ path).drop 2).drop
                  (strings.Cut ((c.config.BasePath ++ path).drop 2) (b '/')).1.length
            ∧ req.URL.Path ≠ c.config.BasePath ++ path)
      ∧ (strings.HasPrefix (c.config.BasePath ++ path) (lit "/") = false →
          strings.Contains (strings.Cut (c.config.BasePath ++ path) (b '/')).1 (b ':') = true →
          req.URL.Path ≠ c.config.BasePath ++ path
            ∧ req.URL.Path.length < (c.config.BasePath ++ path).length) := by
  unfold request.toHTTP at h
  simp only [Client.newRequest, strings.Join, List.append_nil] at h
  cases hn : net.http.NewRequest method
      (URL.RequestURI { Scheme := c.config.Scheme, Host := c.config.Address,
                        Path := c.config.BasePath ++ path,
                        RawQuery := net.url.Values.Encode params }) body with
  | error e => rw [hn] at h; simp at h
  | ok req0 =>
    rw [hn] at h
    simp only [Except.ok.injEq] at h
    subst h
    obtain ⟨u, hu, hm, hurl, -, hb⟩ := NewRequest_ok _ _ _ _ hn
    rw [RequestURI_built] at hu
    obtain ⟨hpl, hne⟩ := pathText_plain (c.config.BasePath ++ path)
    have hq := Parse_RawQuery _ _ hpl (Encode_plain params) hne u hu
    have hrooted : ∀ p : GoString, strings.HasPrefix p (lit "/") = true →
        p ≠ [] ∧ p ≠ lit "*" := by
      intro p hp
      obtain ⟨t, ht⟩ := (HasPrefix_slash p).1 hp
      have hl : lit "*" = [b '*'] := rfl
      rw [ht, hl]
      refine ⟨by simp, ?_⟩
      simp
      intro h
      exact absurd h (by decide)
    refine ⟨hm, rfl, hb, rfl, rfl, rfl, ?_, sortedKeys_sorted params, ?_, ?_, ?_, ?_, ?_⟩
    · simp only [hurl, hq]
    · intro h1 h2
      rw [pathText_rooted _ h1, Parse_rooted _ _ h1 h2 (Encode_plain params)] at hu
      simp only [Except.ok.injEq] at hu
      rw [hurl, ← hu]
    · intro h0
      rw [h0] at hu
      have hroot : (if (if ([] : GoString) = lit "*" then lit "*" else escape [] .encodePath) = []
          then lit "/" else (if ([] : GoString) = lit "*" then lit "*" else escape [] .encodePath))
          = escape (lit "/") .encodePath := by decide
      rw [hroot, Parse_rooted _ _ (by decide) (by decide) (Encode_plain params)] at hu
      simp only [Except.ok.injEq] at hu
      rw [hurl, ← hu]
    · intro h0 h23 h1c
      simp only [hurl]
      by_cases h1 : strings.HasPrefix (c.config.BasePath ++ path) (lit "/") = true
      · by_cases h2 : strings.HasPrefix (c.config.BasePath ++ path) (lit "//") = true
        · rw [pathText_escape _ h0 (hrooted _ h1).2] at hu
          exact Parse_slashes _ _ u (h23 h2) (Encode_plain params) hu
        · rw [pathText_rooted _ h1,
            Parse_rooted _ _ h1 (by simpa using h2) (Encode_plain params)] at hu
          simp only [Except.ok.injEq] at hu
          rw [← hu]
      · have h1f : strings.HasPrefix (c.config.BasePath ++ path) (lit "/") = false := by
          simpa using h1
        by_cases hs : c.config.BasePath ++ path = lit "*"
        · rw [hs] at hu ⊢
          have htext : (if (if lit "*" = lit "*" then lit "*" else escape (lit "*") .encodePath) = []
              then lit "/"
              else (if lit "*" = lit "*" then lit "*" else escape (lit "*") .encodePath))
              = lit "*" := by decide
          rw [htext] at hu
          exact Parse_star _ u (Encode_plain params) hu
        · rw [pathText_escape _ h0 hs] at hu
          exact Parse_relative _ _ u h1f h0 (h1c h1f) (Encode_plain params) hu
    · intro h2 h3
      simp only [hurl]
      obtain ⟨t, ht⟩ := (HasPrefix_slash2 _).1 h2
      have h1 : strings.HasPrefix (c.config.BasePath ++ path) (lit "/") = true :=
        (HasPrefix_slash _).2 ⟨_, ht⟩
      rw [pathText_escape _ (hrooted _ h1).1 (hrooted _ h1).2] at hu
      have hp := Parse_authority _ _ u h2 h3 (Encode_plain params) hu
      refine ⟨hp, ?_⟩
      intro heq
      have hlen := congrArg List.length heq
      rw [hp, ht] at hlen
      simp only [List.drop_succ_cons, List.drop_zero, List.length_drop, List.length_cons] at hlen
      omega
    · intro h1 hc
      simp only [hurl]
      have h0 : c.config.BasePath ++ path ≠ [] := by
        intro h
        rw [h] at hc
        simp [strings.Cut, strings.Contains] at hc
      have hs : c.config.BasePath ++ path ≠ lit "*" := by
        intro h
        rw [h] at hc
        exact absurd hc (by decide)
      rw [pathText_escape _ h0 hs] at hu
      have hlt := Parse_relative_colon _ _ u h1 hc (Encode_plain params) hu
      refine ⟨?_, hlt⟩
      intro heq
      rw [heq] at hlt
      exact absurd hlt (lt_irrefl _)

theorem toHTTP_rooted_ok (c : Client) (method path : GoString) (params : net.url.Values)
    (header : net.http.Header) (body : Option GoString)
    (hm : net.http.validMethod (if method = [] then lit "GET" else method) = true)
    (h1 : strings.HasPrefix (c.config.BasePath ++ path) (lit "/") = true)
    (h2 : strings.HasPrefix (c.config.BasePath ++ path) (lit "//") = false) :
    ∃ req, (request.toHTTP { c.newRequest method path with
              params := params, header := header, body := body }).2 = .ok req := by
  unfold request.toHTTP
  simp only [Client.newRequest, strings.Join, List.append_nil]
  unfold net.http.NewRequest
  rw [RequestURI_built, pathText_rooted _ h1, Parse_rooted _ _ h1 h2 (Encode_plain params)]
  simp [hm]

end nextrip

namespace nextrip

/-- C9 at `sampleClient`, endpoint `/Routes`, `sampleParams` and `sampleHeader`: the
request is `GET https://example.org/NexTrip/Routes?b=x+y&format=json` with the header
attached. -/
theorem toHTTP_request_witness :
    (request.toHTTP { (sampleClient offline).newRequest (lit "GET") (lit "/Routes") with
        params := sampleParams, header := sampleHeader, body := none }).2
        = .ok sampleQueryRequest
      ∧ sampleQueryRequest.Method = lit "GET"
      ∧ sampleQueryRequest.Header = sampleHeader
      ∧ sampleQueryRequest.URL.RawQuery = net.url.Values.Encode sampleParams
      ∧ sampleQueryRequest.URL.RawQuery = lit "b=x+y&format=json"
      ∧ sampleQueryRequest.URL.Path = lit "/NexTrip/Routes" := by
  have h := toHTTP_request (sampleClient offline) (lit "GET") (lit "/Routes") sampleParams
    sampleHeader none sampleQueryRequest rfl
  exact ⟨rfl, h.1, h.2.1, h.2.2.2.2.2.2.1, rfl, rfl⟩

/-- C9, inputs that break it. With an empty base path, `toHTTP` succeeds on the empty
path and sends `/`; it succeeds on the path `//a/b` and sends `/b` (`url.Parse` reads
`a` as a host, which `toHTTP` then overwrites); it succeeds on the path `a:b` and sends
no path at all (`url.Parse` reads `a` as a scheme, which `toHTTP` then overwrites, and
`b` as opaque text); and it succeeds on the empty method and sends `GET`. -/
theorem toHTTP_path_not_kept :
    (∃ req, (request.toHTTP (bareClient.newRequest (lit "GET") [])).2 = .ok req
        ∧ (request.toHTTP (bareClient.newRequest (lit "GET") [])).1.url.Path = []
        ∧ req.URL.Path = lit "/")
      ∧ (∃ req, (request.toHTTP (bareClient.newRequest (lit "GET") (lit "//a/b"))).2 = .ok req
        ∧ (request.toHTTP (bareClient.newRequest (lit "GET") (lit "//a/b"))).1.url.Path
            = lit "//a/b"
        ∧ req.URL.Path = lit "/b")
      ∧ (∃ req, (request.toHTTP (bareClient.newRequest (lit "GET") (lit "a:b"))).2 = .ok req
        ∧ (request.toHTTP (bareClient.newRequest (lit "GET") (lit "a:b"))).1.url.Path
            = lit "a:b"
        ∧ req.URL.Path = [] ∧ req.URL.Opaque = lit "b")
      ∧ (∃ req, (request.toHTTP (bareClient.newRequest [] (lit "/Routes"))).2 = .ok req
        ∧ (request.toHTTP (bareClient.newRequest [] (lit "/Routes"))).1.method = []
        ∧ req.Method = lit "GET") := by
  refine ⟨⟨_, rfl, rfl, ?_⟩, ⟨_, rfl, rfl, ?_⟩, ⟨_, rfl, rfl, ?_, ?_⟩, ⟨_, rfl, rfl, ?_⟩⟩ <;> decide

/-- Paths that `toHTTP` keeps although they do not begin with a single `/`: with an empty
base path, `///x`, `Routes`, `a/b:c` and `*` are sent as they are. -/
theorem toHTTP_path_kept_samples :
    (∃ req, (request.toHTTP (bareClient.newRequest (lit "GET") (lit "///x"))).2 = .ok req
        ∧ req.URL.Path = lit "///x")
      ∧ (∃ req, (request.toHTTP (bareClient.newRequest (lit "GET") (lit "Routes"))).2 = .ok req
        ∧ req.URL.Path = lit "Routes")
      ∧ (∃ req, (request.toHTTP (bareClient.newRequest (lit "GET") (lit "a/b:c"))).2 = .ok req
        ∧ req.URL.Path = lit "a/b:c")
      ∧ (∃ req, (request.toHTTP (bareClient.newRequest (lit "GET") (lit "*"))).2 = .ok req
        ∧ req.URL.Path = lit "*") := by
  refine ⟨⟨_, rfl, ?_⟩, ⟨_, rfl, ?_⟩, ⟨_, rfl, ?_⟩, ⟨_, rfl, ?_⟩⟩ <;> decide

end nextrip
